import Mathlib

/-!
Verification of the MT5-Toolbox trade copier and backtester.

This file gives a shallow embedding of the relevant parts of the source:

* `worker.py` — the session supervisor cycle (`_process_logged_in_accounts`),
  the mirror engine (`_copy_trades_for_slave`) and volume sizing
  (`_calculate_volume`);
* `backtest_components.py` — the event-driven backtest `Portfolio`
  (`on_bar`, `on_signal`, `on_fill`);
* `backtest_engine.py` — the `SimulatedPortfolio` (`on_bar`, `close_position`);
* `utils/core_utils.py` — `encrypt_password` / `decrypt_password`.

Python floats are embedded as exact rationals (ℚ); Python `dict`s as
association lists with insertion-order overwrite semantics; functions that can
raise are embedded returning `Option`.
-/

set_option autoImplicit false

namespace MT5

/-! ## Python dict / assoc-list helpers

Python `dict` semantics: `d[k] = v` overwrites in place when `k` is present
(keeping its position) and appends otherwise; `k in d` / `d.get(k)` look up by
key. -/

/-- `d[k] = v` on a Python dict represented as an assoc list. -/
def dictInsert {κ α : Type} [DecidableEq κ] : List (κ × α) → κ → α → List (κ × α)
  | [], k, v => [(k, v)]
  | (k0, v0) :: rest, k, v =>
      if k0 = k then (k0, v) :: rest else (k0, v0) :: dictInsert rest k v

/-- `d.get(k)` on a Python dict represented as an assoc list. -/
def dictGet {κ α : Type} [DecidableEq κ] : List (κ × α) → κ → Option α
  | [], _ => none
  | (k0, v0) :: rest, k => if k0 = k then some v0 else dictGet rest k

/-- `del d[k]` on a Python dict represented as an assoc list. -/
def dictErase {κ α : Type} [DecidableEq κ] : List (κ × α) → κ → List (κ × α)
  | [], _ => []
  | (k0, v0) :: rest, k => if k0 = k then rest else (k0, v0) :: dictErase rest k

/-- Python `round()` on an exact rational: round half to even (banker's
rounding), as used by `round(volume / lot_step)` in `_calculate_volume`. -/
def roundHalfEven (q : ℚ) : ℤ :=
  let f : ℤ := Int.floor q
  let frac : ℚ := q - (f : ℚ)
  if frac < 1/2 then f
  else if 1/2 < frac then f + 1
  else if f % 2 = 0 then f else f + 1

/-! ## MT5 trade rows

`positions_get()` rows (`TradePosition`) and `orders_get()` rows (`TradeOrder`)
are both embedded as `MTrade`.  `isPosition` records which getter the row came
from: `TradePosition` has the attributes `profit` and `volume`, `TradeOrder`
instead has `volume_initial`.  Crucially, BOTH kinds expose `price_open`
(see the reference MetaTrader5 API and this repository's own
`models/mt5_types.py`, whose `PositionInfo` — "模拟 mt5.positions_get() 返回的
namedtuple" — lists `price_open`).  The `volume` field below holds `.volume`
for positions and `.volume_initial` for orders, matching the
`hasattr(trade, 'volume')` dispatch in `_calculate_volume`. -/
structure MTrade where
  ticket : ℤ
  symbol : String
  /-- order/position type: 0 Buy, 1 Sell, 2 BuyLimit, 3 SellLimit, 4 BuyStop, 5 SellStop -/
  ty : ℤ
  /-- came from `positions_get()` (has `.profit`) rather than `orders_get()` -/
  isPosition : Bool
  /-- `.volume` for positions, `.volume_initial` for pending orders -/
  volume : ℚ
  price_open : ℚ
  sl : ℚ
  tp : ℚ
  /-- floating profit; only meaningful when `isPosition` -/
  profit : ℚ
  magic : ℤ
  comment : String
  deriving Repr, DecidableEq

/-- `hasattr(trade, 'profit')` — true exactly for rows of `positions_get()`.
This is the position test used at worker.py:286, :302 and :422. -/
def hasattrProfit (t : MTrade) : Bool := t.isPosition

/-- `hasattr(trade, 'price_open')` — true for BOTH `TradePosition` and
`TradeOrder` rows: positions as well as pending orders carry a `price_open`
attribute.  This is the test used at worker.py:331. -/
def hasattrPriceOpen (_ : MTrade) : Bool := true

/-- `mt5.symbol_info(sym)` fields used by `_calculate_volume`. -/
structure SymInfo where
  volume_step : ℚ
  volume_min : ℚ
  volume_max : ℚ
  deriving Repr, DecidableEq

/-- `mt5.symbol_info_tick(sym)` fields used by the copier. -/
structure Tick where
  ask : ℚ
  bid : ℚ
  deriving Repr, DecidableEq

/-- `account_info()` fields used by the copier. -/
structure AccInfo where
  equity : ℚ
  deriving Repr, DecidableEq

/-- The request dicts passed to `order_send`.  Fields not set by a given
request keep their defaults (the Python dicts simply omit them). -/
inductive TradeAct where
  | deal
  | pending
  | remove
  | sltp
  | modify
  deriving Repr, DecidableEq

structure Request where
  action : TradeAct
  symbol : String := ""
  volume : ℚ := 0
  ty : ℤ := 0
  price : ℚ := 0
  sl : ℚ := 0
  tp : ℚ := 0
  deviation : ℤ := 0
  magic : ℤ := 0
  comment : String := ""
  /-- the `position` ticket field of close / SLTP requests -/
  position : Option ℤ := none
  /-- the `order` ticket field of remove / modify requests -/
  order : Option ℤ := none
  deriving Repr, DecidableEq

/-- Per-follower config section, with the defaults the worker applies when a
key is missing (`slave_config.get(...)` fallbacks).  `fixed_lot_size` is
`none` when the raw string is missing or unparseable; both cases make
`_calculate_volume` fall back to `0.01`. -/
structure SlaveCfg where
  enabled : Bool := false
  follow_master_id : String := "master1"
  magic : ℤ := 0
  copy_mode : String := "forward"
  /-- `int(slave_config.get('slippage', '20'))` -/
  deviation : ℤ := 20
  default_symbol_rule : String := "none"
  default_symbol_text : String := ""
  volume_mode : String := "same_as_master"
  fixed_lot_size : Option ℚ := none
  deriving Repr, DecidableEq

/-- The per-follower slice of the terminal adapter the mirror sweeps consult:
`symbol_select`, `symbol_info` and `symbol_info_tick` on the follower's
connection. -/
structure MirrorEnv where
  symbol_select : String → Bool
  symbol_info : String → Option SymInfo
  tick : String → Option Tick

/-! ## Mirror engine (worker.py `_copy_trades_for_slave`) -/

/-- Python `s.split(sep)` for a single-character separator: splits on every
occurrence and keeps empty fields (`"".split(" ") == [""]`). -/
def pySplitChar (sep : Char) : List Char → List (List Char)
  | [] => [[]]
  | c :: rest =>
      let r := pySplitChar sep rest
      if c = sep then [] :: r
      else
        match r with
        | [] => [[c]]
        | h :: t => (c :: h) :: t

/-- Python `s.startswith(pre)`. -/
def pyStartsWith (pre s : String) : Bool :=
  pre.data.isPrefixOf s.data

/-- Decimal digit value, `none` for a non-digit. -/
def digitVal (c : Char) : Option ℕ :=
  if '0' ≤ c ∧ c ≤ '9' then some (c.toNat - '0'.toNat) else none

/-- Accumulate decimal digits; `none` on the first non-digit. -/
def digitsToNatAux : ℕ → List Char → Option ℕ
  | acc, [] => some acc
  | acc, c :: rest =>
      match digitVal c with
      | some d => digitsToNatAux (acc * 10 + d) rest
      | none => none

/-- Python `int(s)` restricted to an optional sign followed by decimal digits
(the only shapes the copier's own `"F <ticket>"` comments produce); anything
else raises `ValueError`, i.e. `none`. -/
def pyInt (s : String) : Option ℤ :=
  match s.data with
  | [] => none
  | '-' :: rest =>
      if rest = [] then none else (digitsToNatAux 0 rest).map (fun n => -(n : ℤ))
  | '+' :: rest =>
      if rest = [] then none else (digitsToNatAux 0 rest).map (fun n => (n : ℤ))
  | l => (digitsToNatAux 0 l).map (fun n => (n : ℤ))

/-- Parse a follower comment back to the master ticket:
`int(t.comment.split(" ")[-1])`; `none` models the `ValueError`/`IndexError`
skip at worker.py:280. -/
def parseMirrorTicket (c : String) : Option ℤ :=
  ((pySplitChar ' ' c.data).getLast?).bind (fun l => pyInt (String.mk l))

/-- Build `slave_copied_trades`: the dict `masterTicket → followerTrade` from
rows with the follower's magic and a parseable `"F <int>"` comment
(worker.py:274-281). -/
def buildMirrored (slaveTrades : List MTrade) (slaveMagic : ℤ) : List (ℤ × MTrade) :=
  slaveTrades.foldl (fun d t =>
    if t.magic = slaveMagic ∧ pyStartsWith ("F ") t.comment then
      match parseMirrorTicket t.comment with
      | some ref => dictInsert d ref t
      | none => d
    else d) []

/-- The master tickets currently mirrored on the follower (the keys of
`slave_copied_trades`). -/
def mirroredTickets (slaveTrades : List MTrade) (slaveMagic : ℤ) : List ℤ :=
  (buildMirrored slaveTrades slaveMagic).map Prod.fst

/-- Build `master_trades_dict = {t.ticket: t for t in positions + orders}`. -/
def buildTradeDict (trades : List MTrade) : List (ℤ × MTrade) :=
  trades.foldl (fun d t => dictInsert d t.ticket t) []

/-- Close sweep (worker.py:283-293): for every mirrored pair whose master
ticket is gone, send a market close (positions, priced off the follower tick)
or a remove (pendings). -/
def closeStep (masterDict : List (ℤ × MTrade)) (env : MirrorEnv)
    (slaveMagic deviation : ℤ) (acc : List Request) (p : ℤ × MTrade) : List Request :=
  if (dictGet masterDict p.1).isSome then acc
  else if hasattrProfit p.2 then
    match env.tick p.2.symbol with
    | none => acc
    | some tk =>
        acc ++ [{ action := .deal, position := some p.2.ticket, symbol := p.2.symbol,
                  volume := p.2.volume, ty := 1 - p.2.ty,
                  price := (if p.2.ty = 0 then tk.bid else tk.ask),
                  deviation := deviation, magic := slaveMagic,
                  comment := "Close F " ++ toString p.1 }]
  else acc ++ [{ action := .remove, order := some p.2.ticket }]

def closeRequests (mirrored masterDict : List (ℤ × MTrade)) (env : MirrorEnv)
    (slaveMagic deviation : ℤ) : List Request :=
  mirrored.foldl (closeStep masterDict env slaveMagic deviation) []

/-- `1e-9`, the SL/TP comparison tolerance. -/
def sltpEps : ℚ := 1 / 1000000000

/-- The loop body of the SL/TP reconciliation sweep (worker.py:295-308): for
a mirrored pair whose master ticket is still open, compute the expected
`(sl, tp)` (swapped in reverse mode) and emit a modify when either differs by
more than `1e-9` — `TRADE_ACTION_SLTP` for positions, `TRADE_ACTION_MODIFY`
keeping the follower's own `price_open` for pendings. -/
def sltpStep (masterDict : List (ℤ × MTrade)) (copyMode : String)
    (acc : List Request) (p : ℤ × MTrade) : List Request :=
  match dictGet masterDict p.1 with
  | none => acc
  | some mt =>
      let expected : ℚ × ℚ := if copyMode = "reverse" then (mt.tp, mt.sl) else (mt.sl, mt.tp)
      if sltpEps < |p.2.sl - expected.1| ∨ sltpEps < |p.2.tp - expected.2| then
        if hasattrProfit p.2 then
          acc ++ [{ action := .sltp, position := some p.2.ticket,
                    sl := expected.1, tp := expected.2, symbol := p.2.symbol }]
        else
          acc ++ [{ action := .modify, order := some p.2.ticket, price := p.2.price_open,
                    sl := expected.1, tp := expected.2, symbol := p.2.symbol }]
      else acc

/-- SL/TP reconciliation sweep: the loop over `slave_copied_trades`. -/
def sltpRequests (mirrored masterDict : List (ℤ × MTrade)) (copyMode : String) :
    List Request :=
  mirrored.foldl (sltpStep masterDict copyMode) []

/-- The expected `(sl, tp)` pair for a follower of a master trade:
the master's own pair, swapped in reverse mode. -/
def expectedSlTp (copyMode : String) (mt : MTrade) : ℚ × ℚ :=
  if copyMode = "reverse" then (mt.tp, mt.sl) else (mt.sl, mt.tp)

/-- The reconciliation trigger: follower SL or TP differs from the expected
value by more than `1e-9`. -/
def needsSltpModify (copyMode : String) (st mt : MTrade) : Prop :=
  sltpEps < |st.sl - (expectedSlTp copyMode mt).1| ∨
  sltpEps < |st.tp - (expectedSlTp copyMode mt).2|

instance (copyMode : String) (st mt : MTrade) : Decidable (needsSltpModify copyMode st mt) := by
  unfold needsSltpModify
  infer_instance

/-- The modify request the reconciliation sweep sends for a follower trade
`st` of master trade `mt`. -/
def sltpModReq (copyMode : String) (st mt : MTrade) : Request :=
  if hasattrProfit st then
    { action := .sltp, position := some st.ticket,
      sl := (expectedSlTp copyMode mt).1, tp := (expectedSlTp copyMode mt).2,
      symbol := st.symbol }
  else
    { action := .modify, order := some st.ticket, price := st.price_open,
      sl := (expectedSlTp copyMode mt).1, tp := (expectedSlTp copyMode mt).2,
      symbol := st.symbol }

/-- The SL/TP sweep's per-pair outcome as an `Option`. -/
def sltpOne (masterDict : List (ℤ × MTrade)) (copyMode : String) (p : ℤ × MTrade) :
    Option Request :=
  match dictGet masterDict p.1 with
  | none => none
  | some mt =>
      if needsSltpModify copyMode p.2 mt then some (sltpModReq copyMode p.2 mt) else none

/-- Follower symbol resolution in the open sweep (worker.py:312-319): an exact
override in the per-follower mapping table wins — but only its `replace` rule
changes the symbol — and only when no override exists do the follower's
default rule and text apply. -/
def resolveSlaveSymbol (slaveMap : List (String × (String × String)))
    (defaultRule defaultText masterSymbol : String) : String :=
  match dictGet slaveMap masterSymbol with
  | some rt => if rt.1 = "replace" then rt.2 else masterSymbol
  | none =>
      if defaultRule ≠ "none" ∧ defaultText ≠ "" then
        if defaultRule = "suffix" then masterSymbol ++ defaultText
        else if defaultRule = "prefix" then defaultText ++ masterSymbol
        else masterSymbol
      else masterSymbol

/-- `_calculate_volume` (worker.py:127-146).  The master volume is `.volume`
for positions and `.volume_initial` for pendings (the `hasattr` dispatch);
then the volume mode is applied, and finally — when `symbol_info` is
available — the result is raised to `volume_min`, rounded to a multiple of
`volume_step` with Python `round`, and capped at `volume_max`, in that
order. -/
def calculateVolume (master_trade : MTrade) (master_info slave_info : AccInfo)
    (cfg : SlaveCfg) (env : MirrorEnv) (symbol : String) : ℚ :=
  let master_volume := master_trade.volume
  let volume0 : ℚ :=
    if cfg.volume_mode = "fixed_lot" then cfg.fixed_lot_size.getD (1/100)
    else if cfg.volume_mode = "equity_ratio" then
      if 0 < master_info.equity ∧ 0 < slave_info.equity then
        master_volume * (slave_info.equity / master_info.equity)
      else master_volume
    else master_volume
  match env.symbol_info symbol with
  | none => volume0
  | some si =>
      let v1 := max si.volume_min volume0
      let v2 := (roundHalfEven (v1 / si.volume_step) : ℚ) * si.volume_step
      min si.volume_max v2

/-- The pre-clamp volume of `_calculate_volume`: the configured volume mode
applied to the master volume (any unrecognised mode falls back to the master
volume, as does `equity_ratio` when an equity is not positive). -/
def volumeBase (mt : MTrade) (mi si : AccInfo) (cfg : SlaveCfg) : ℚ :=
  if cfg.volume_mode = "fixed_lot" then cfg.fixed_lot_size.getD (1/100)
  else if cfg.volume_mode = "equity_ratio" then
    if 0 < mi.equity ∧ 0 < si.equity then mt.volume * (si.equity / mi.equity)
    else mt.volume
  else mt.volume

/-- Reverse-mode order type map `{0:1, 1:0, 2:5, 3:4, 4:3, 5:2}`; `none`
models `dict.get` returning `None` for unmapped types. -/
def typeMapReverse (t : ℤ) : Option ℤ :=
  if t = 0 then some 1
  else if t = 1 then some 0
  else if t = 2 then some 5
  else if t = 3 then some 4
  else if t = 4 then some 3
  else if t = 5 then some 2
  else none

/-- Open sweep (worker.py:310-339), returning each emitted `order_send`
request tagged with the master ticket (`m_ticket`, the loop variable) it was
built from.  For every master trade that is not yet mirrored and whose magic
differs from the follower's: resolve the symbol, require `symbol_select`,
size the volume, swap SL/TP and the side in reverse mode, and send — a
pending at the master's `price_open` whenever `hasattr(master_trade,
'price_open')` (which is always), else a market deal at ask/bid. -/
def openStep (mirrored : List (ℤ × MTrade)) (cfg : SlaveCfg)
    (slaveMap : List (String × (String × String))) (env : MirrorEnv)
    (master_info slave_info : AccInfo)
    (acc : List (ℤ × Request)) (p : ℤ × MTrade) : List (ℤ × Request) :=
  if (dictGet mirrored p.1).isNone ∧ p.2.magic ≠ cfg.magic then
    let slave_symbol :=
      resolveSlaveSymbol slaveMap cfg.default_symbol_rule cfg.default_symbol_text p.2.symbol
    if env.symbol_select slave_symbol then
      let volume := calculateVolume p.2 master_info slave_info cfg env slave_symbol
      let stp : ℚ × ℚ :=
        if cfg.copy_mode = "reverse" then (p.2.tp, p.2.sl) else (p.2.sl, p.2.tp)
      let trade_type : Option ℤ :=
        if cfg.copy_mode = "reverse" then typeMapReverse p.2.ty else some p.2.ty
      match trade_type with
      | none => acc
      | some tt =>
          let base : Request :=
            { action := .pending, symbol := slave_symbol, volume := volume, ty := tt,
              sl := stp.1, tp := stp.2, magic := cfg.magic,
              comment := "F " ++ toString p.1, deviation := cfg.deviation }
          if hasattrPriceOpen p.2 then
            acc ++ [(p.1, { base with action := .pending, price := p.2.price_open })]
          else
            match env.tick slave_symbol with
            | none => acc
            | some tk =>
                let price := if tt = 0 ∨ tt = 2 ∨ tt = 4 then tk.ask else tk.bid
                acc ++ [(p.1, { base with action := .deal, price := price })]
    else acc
  else acc

def openRequests (masterDict mirrored : List (ℤ × MTrade)) (cfg : SlaveCfg)
    (slaveMap : List (String × (String × String))) (env : MirrorEnv)
    (master_info slave_info : AccInfo) : List (ℤ × Request) :=
  masterDict.foldl (openStep mirrored cfg slaveMap env master_info slave_info) []

/-- The open sweep's per-master-trade outcome as an `Option`: the tagged
request it would append, or `none` when the trade is skipped (already
mirrored, own magic, `symbol_select` failure, reverse type unmapped, or —
in the dead market-deal branch — no tick). -/
def openOne (mirrored : List (ℤ × MTrade)) (cfg : SlaveCfg)
    (slaveMap : List (String × (String × String))) (env : MirrorEnv)
    (master_info slave_info : AccInfo) (p : ℤ × MTrade) : Option (ℤ × Request) :=
  if (dictGet mirrored p.1).isNone ∧ p.2.magic ≠ cfg.magic then
    let slave_symbol :=
      resolveSlaveSymbol slaveMap cfg.default_symbol_rule cfg.default_symbol_text p.2.symbol
    if env.symbol_select slave_symbol then
      let volume := calculateVolume p.2 master_info slave_info cfg env slave_symbol
      let stp : ℚ × ℚ :=
        if cfg.copy_mode = "reverse" then (p.2.tp, p.2.sl) else (p.2.sl, p.2.tp)
      let trade_type : Option ℤ :=
        if cfg.copy_mode = "reverse" then typeMapReverse p.2.ty else some p.2.ty
      match trade_type with
      | none => none
      | some tt =>
          let base : Request :=
            { action := .pending, symbol := slave_symbol, volume := volume, ty := tt,
              sl := stp.1, tp := stp.2, magic := cfg.magic,
              comment := "F " ++ toString p.1, deviation := cfg.deviation }
          if hasattrPriceOpen p.2 then
            some (p.1, { base with action := .pending, price := p.2.price_open })
          else
            match env.tick slave_symbol with
            | none => none
            | some tk =>
                let price := if tt = 0 ∨ tt = 2 ∨ tt = 4 then tk.ask else tk.bid
                some (p.1, { base with action := .deal, price := price })
    else none
  else none

/-! ## Session supervisor cycle (worker.py `_process_logged_in_accounts`)

One call of `_process_logged_in_accounts` is embedded as a pure function from
the worker's state and a per-cycle environment (the outcomes the terminal
adapter and the UI would produce this cycle) to the successor state plus the
observable action trace: connect attempts (`mt5.initialize`), `order_send`
calls, and the messages put on `account_info_queue` (status labels and
telemetry dicts).  Log-queue strings and the UI-side `verified_passwords`
set are not modeled.  `STOP_STRATEGY` self-commands are recorded as
`taskStop`. -/

/-- `MAX_CONN_FAILURES` (worker.py:149). -/
def MAXF : ℕ := 10

/-- `self.connection_failures.get(acc_id, 0)`. -/
def getFail (fs : List (String × ℕ)) (acc : String) : ℕ :=
  (dictGet fs acc).getD 0

/-- The observable actions of one supervisor cycle. -/
inductive WAction where
  | connectAttempt (acc : String)
  | orderSend (acc : String) (req : Request)
  | statusMsg (acc : String) (status : String)
  | telemetry (acc : String)
  | taskStop (acc : String)
  deriving Repr, DecidableEq

/-- Result of `_connect_mt5` for an account this cycle: the config-complete
check failed, the initialize succeeded, or it failed with `last_error`
code. -/
inductive ConnRes where
  | incomplete
  | ok
  | fail (code : ℤ)
  deriving Repr, DecidableEq

/-- Actions emitted by `_connect_mt5` itself (worker.py:386-408): the
`config_incomplete` status short-circuits before any initialize; a failed
initialize emits an `error` status. -/
def connectActions (acc : String) : ConnRes → List WAction
  | .incomplete => [.statusMsg acc ("config_incomplete")]
  | .ok => [.connectAttempt acc]
  | .fail _ => [.connectAttempt acc, .statusMsg acc ("error")]

/-- What the terminal returns for one account while it is connected this
cycle. -/
structure AcctEnv where
  connect : ConnRes
  /-- `account_info()`; `none` embeds a falsy result -/
  account_info : Option AccInfo
  /-- `positions_get() + orders_get()` -/
  trades : List MTrade
  mirror : MirrorEnv
  /-- `strategy.is_alive()` for a strategy-hosting account -/
  alive : Bool

/-- One pending credential verification handed over by the UI: the account,
the new config, and whether the probe connect succeeds. -/
structure PendingVerify where
  acc : String
  newCfg : SlaveCfg
  probeOk : Bool

/-- The per-cycle environment: terminal behaviour per account plus the
UI-owned `pending_verification_config` snapshot. -/
structure CycleEnv where
  acct : String → AcctEnv
  pendingVerify : List PendingVerify

/-- The mutable worker/app state the cycle reads and writes. -/
structure WorkerState where
  /-- `self.connection_failures` -/
  fails : List (String × ℕ)
  /-- `self.app.logged_in_accounts` (set; modeled as its iteration order) -/
  loggedIn : List String
  /-- keys of `self.app.strategy_instances` -/
  strategyInstances : List String
  /-- `self.app.NUM_SLAVES` -/
  numSlaves : ℕ
  /-- the config section per account id -/
  config : String → SlaveCfg
  /-- `self.app.per_slave_mapping` -/
  slaveMap : String → List (String × (String × String))

/-- `_get_account_details` (worker.py:410-454): an `error` status when
`account_info()` is falsy, otherwise one telemetry dict. -/
def detailActions (acc : String) (e : AcctEnv) : List WAction :=
  match e.account_info with
  | none => [.statusMsg acc ("error")]
  | some _ => [.telemetry acc]

/-- Verification of one pending credential change (worker.py:155-170): only
accounts in the logged-in copy are probed; success installs the new config
and zeroes the failure count, failure forces `failures = MAX + 1`.  (The
probe's own `_connect_mt5` status messages carry the temp config's id and are
not modeled; the probe is recorded as a `connectAttempt`.) -/
def verifyStep (st : WorkerState) (pv : PendingVerify) : WorkerState × List WAction :=
  if pv.acc ∈ st.loggedIn then
    if pv.probeOk then
      ({ st with fails := dictInsert st.fails pv.acc 0,
                 config := fun a => if a = pv.acc then pv.newCfg else st.config a },
       [.connectAttempt pv.acc])
    else
      ({ st with fails := dictInsert st.fails pv.acc (MAXF + 1) },
       [.connectAttempt pv.acc, .statusMsg pv.acc ("error")])
  else (st, [])

/-- Each loop of the cycle threads a state while appending the actions the
step emits. -/
def tracedFold {σ α : Type} (f : σ → α → σ × List WAction) (l : List α)
    (init : σ × List WAction) : σ × List WAction :=
  l.foldl (fun a x =>
    let r := f a.1 x
    (r.1, a.2 ++ r.2)) init

def verifyPhase (st : WorkerState) (pvs : List PendingVerify) :
    WorkerState × List WAction :=
  tracedFold verifyStep pvs (st, [])

/-- `f'slave{i}'`. -/
def slaveId (i : ℕ) : String :=
  "slave" ++ toString i

/-- The follower-selection loop (worker.py:173-182): numbered slave accounts
that are logged in, not running a strategy, and enabled. -/
def eligibleSlaves (st : WorkerState) : List (String × SlaveCfg) :=
  (List.range st.numSlaves).filterMap (fun i =>
    let sid := slaveId (i + 1)
    if sid ∈ st.loggedIn ∧ sid ∉ st.strategyInstances ∧ (st.config sid).enabled = true
    then some (sid, st.config sid) else none)

/-- `slaves_by_master[m].append(s)` with dict-of-lists semantics. -/
def groupInsert (g : List (String × List (String × SlaveCfg))) (mid : String)
    (s : String × SlaveCfg) : List (String × List (String × SlaveCfg)) :=
  match g with
  | [] => [(mid, [s])]
  | (m0, l0) :: rest =>
      if m0 = mid then (m0, l0 ++ [s]) :: rest else (m0, l0) :: groupInsert rest mid s

/-- Build `slaves_by_master` (grouped by each follower's
`follow_master_id`). -/
def slavesByMaster (st : WorkerState) : List (String × List (String × SlaveCfg)) :=
  (eligibleSlaves st).foldl (fun g s => groupInsert g s.2.follow_master_id s) []

/-- `_copy_trades_for_slave` (worker.py:249-343) as a transformer of the
failure counters plus its action trace.  The `enabled` recheck, the
follower connect (any failure — including `invalidAuth` — merely increments
the counter, worker.py:256-258), telemetry, the `copying` status, the
unconditional counter reset after `account_info()`, and the three sweeps'
`order_send` calls. -/
def copyTradesForSlave (fails : List (String × ℕ)) (sid : String) (cfg : SlaveCfg)
    (masterDict : List (ℤ × MTrade)) (master_info : AccInfo)
    (slaveMap : List (String × (String × String))) (e : AcctEnv) :
    List (String × ℕ) × List WAction :=
  if cfg.enabled = false then (fails, [.statusMsg sid ("disabled")])
  else if e.connect ≠ .ok then
    (dictInsert fails sid (getFail fails sid + 1), connectActions sid e.connect)
  else
    let acts0 := connectActions sid e.connect ++ detailActions sid e
      ++ [.statusMsg sid ("copying")]
    let fails1 := dictInsert fails sid 0
    match e.account_info with
    | none => (fails1, acts0)
    | some slave_info =>
        let mirrored := buildMirrored e.trades cfg.magic
        let reqs :=
          closeRequests mirrored masterDict e.mirror cfg.magic cfg.deviation
          ++ sltpRequests mirrored masterDict cfg.copy_mode
          ++ (openRequests masterDict mirrored cfg slaveMap e.mirror master_info
               slave_info).map Prod.snd
        (fails1, acts0 ++ reqs.map (WAction.orderSend sid))

/-- The follower loop body inside a group (worker.py:203-211): a follower at
the failure cap only gets `locked`; otherwise the copier runs and its updated
counters are written back. -/
def slaveStep (env : String → AcctEnv) (masterDict : List (ℤ × MTrade))
    (master_info : AccInfo) (st : WorkerState) (s : String × SlaveCfg) :
    WorkerState × List WAction :=
  if MAXF ≤ getFail st.fails s.1 then (st, [.statusMsg s.1 ("locked")])
  else
    let r := copyTradesForSlave st.fails s.1 s.2 masterDict master_info
      (st.slaveMap s.1) (env s.1)
    ({ st with fails := r.1 }, r.2)

/-- One `slaves_by_master` group (worker.py:184-211): skip a master that is
not logged in; emit `locked` for a master at the failure cap; on a failed
master connect bump its counter (forcing `MAX+1` on `invalidAuth` 1045) and
mark every follower of the group `inactive`; on success zero the counter,
refresh telemetry, and run the copier for each follower that is itself below
the cap (those at the cap just get `locked`). -/
def masterGroupStep (env : String → AcctEnv) (st : WorkerState)
    (grp : String × List (String × SlaveCfg)) : WorkerState × List WAction :=
  if grp.1 ∈ st.loggedIn then
    if MAXF ≤ getFail st.fails grp.1 then (st, [.statusMsg grp.1 ("locked")])
    else
      let e := env grp.1
      if e.connect ≠ .ok then
        let f1 := dictInsert st.fails grp.1 (getFail st.fails grp.1 + 1)
        let f2 := if e.connect = .fail 1045 then dictInsert f1 grp.1 (MAXF + 1) else f1
        ({ st with fails := f2 },
         connectActions grp.1 e.connect ++ grp.2.map (fun s => .statusMsg s.1 ("inactive")))
      else
        let st1 := { st with fails := dictInsert st.fails grp.1 0 }
        let acts1 := connectActions grp.1 e.connect ++ detailActions grp.1 e
          ++ [.statusMsg grp.1 ("connected")]
        match e.account_info with
        | none => (st1, acts1)
        | some master_info =>
            let masterDict := buildTradeDict e.trades
            tracedFold (slaveStep env masterDict master_info) grp.2 (st1, acts1)
  else (st, [])

/-- Step 3 of the cycle (worker.py:214-247) for one logged-in account:
followers handled by a group are skipped; an account at the failure cap only
re-emits `locked`; otherwise connect — on success zero the counter, refresh
telemetry and report `strategy_running` / `connected` (reaping a dead
strategy thread as `error`); on failure bump the counter, and on
`invalidAuth` 1045 force it to `MAX+1` and stop a running strategy. -/
def otherAcctStep (env : String → AcctEnv) (copyIds : List String)
    (st : WorkerState) (acc : String) : WorkerState × List WAction :=
  if acc ∈ copyIds then (st, [])
  else if MAXF ≤ getFail st.fails acc then (st, [.statusMsg acc ("locked")])
  else
    let e := env acc
    if e.connect = .ok then
      let st1 := { st with fails := dictInsert st.fails acc 0 }
      let acts := connectActions acc e.connect ++ detailActions acc e
      if acc ∈ st.strategyInstances then
        if e.alive = false then
          ({ st1 with strategyInstances := st1.strategyInstances.filter (fun x => x ≠ acc) },
           acts ++ [.statusMsg acc ("error")])
        else (st1, acts ++ [.statusMsg acc ("strategy_running")])
      else (st1, acts ++ [.statusMsg acc ("connected")])
    else
      let f1 := dictInsert st.fails acc (getFail st.fails acc + 1)
      if e.connect = .fail 1045 then
        ({ st with fails := dictInsert f1 acc (MAXF + 1) },
         connectActions acc e.connect ++
           (if acc ∈ st.strategyInstances then [.taskStop acc] else []))
      else ({ st with fails := f1 }, connectActions acc e.connect)

/-- One full `_process_logged_in_accounts` cycle: credential verification,
then the master/follower groups, then every other logged-in account. -/
def runCycle (st : WorkerState) (env : CycleEnv) : WorkerState × List WAction :=
  let r1 := verifyPhase st env.pendingVerify
  let groups := slavesByMaster r1.1
  let copyIds := groups.foldl (fun l g => l ++ g.2.map Prod.fst) []
  let r2 := tracedFold (masterGroupStep env.acct) groups r1
  tracedFold (otherAcctStep env.acct copyIds) r2.1.loggedIn r2

/-- A run of consecutive supervisor cycles. -/
def runCycles (st : WorkerState) (envs : List CycleEnv) : WorkerState × List WAction :=
  tracedFold runCycle envs (st, [])

/-- The account an action concerns. -/
def WAction.acct : WAction → String
  | .connectAttempt a => a
  | .orderSend a _ => a
  | .statusMsg a _ => a
  | .telemetry a => a
  | .taskStop a => a

/-! ## Backtest Portfolio (backtest_components.py:81-201)

`Portfolio` holds `cash`, `equity` and a dict `positions` keyed by symbol.
The data handler's `get_latest_bar` result at dispatch time is passed in
explicitly (`Option PBar`; `none` embeds a `None` bar). -/

/-- The slice of a pandas bar row the `Portfolio` reads: the `close` column
and the Series `.name` (the bar's timestamp). -/
structure PBar where
  close : ℚ
  name : ℤ
  deriving Repr, DecidableEq

/-- A value of the `Portfolio.positions` dict. -/
structure BPos where
  /-- 0 for buy, 1 for sell -/
  ty : ℤ
  volume : ℚ
  price_open : ℚ
  price_current : ℚ
  profit : ℚ
  open_time : ℤ
  deriving Repr, DecidableEq

structure BPortfolio where
  initial_cash : ℚ
  cash : ℚ
  equity : ℚ
  positions : List (String × BPos)
  deriving Repr, DecidableEq

/-- `Portfolio.__init__(events, data, initial_cash, leverage)`. -/
def mkPortfolio (initial_cash : ℚ) : BPortfolio :=
  { initial_cash := initial_cash, cash := initial_cash, equity := initial_cash,
    positions := [] }

/-- The "简化计算" profit formula of `Portfolio.on_bar`
(backtest_components.py:117-120). -/
def barProfit (ty : ℤ) (price_open volume close : ℚ) : ℚ :=
  if ty = 0 then (close - price_open) * volume * 100000
  else (price_open - close) * volume * 100000

/-- `Portfolio.on_bar` (backtest_components.py:101-126): if the data handler
has no latest bar for the event's symbol, return with everything unchanged;
otherwise recompute every open position's profit and `price_current` from
that single bar's close and set `equity = cash + Σ profit`
(`current_equity` starts at `self.cash` and accumulates each profit). -/
def portfolioOnBar (p : BPortfolio) (latest_bar : Option PBar) : BPortfolio :=
  match latest_bar with
  | none => p
  | some bar =>
      let step := p.positions.foldl
        (fun (a : List (String × BPos) × ℚ) sp =>
          let profit := barProfit sp.2.ty sp.2.price_open sp.2.volume bar.close
          (a.1 ++ [(sp.1, { sp.2 with profit := profit, price_current := bar.close })],
           a.2 + profit))
        ([], p.cash)
      { p with positions := step.1, equity := step.2 }

/-- A `FillEvent` (models/events.py). -/
structure Fill where
  symbol : String
  /-- `'BUY'` or `'SELL'` -/
  direction : String
  quantity : ℚ
  fill_price : ℚ
  commission : ℚ
  deriving Repr, DecidableEq

/-- `Portfolio.on_fill` (backtest_components.py:147-179): debit the
commission from cash; if the symbol has no open position, open one at the
fill price (profit initialised to `-commission`, `open_time` from the latest
bar — reading `.name` of a `None` bar raises, embedded as `none`); otherwise
realize the existing position's recorded profit into cash and delete it (the
computed `pos_dir` local is never used, and no new position is opened on this
branch). -/
def portfolioOnFill (p : BPortfolio) (e : Fill) (latest_bar : Option PBar) :
    Option BPortfolio :=
  let p1 := { p with cash := p.cash - e.commission }
  match dictGet p1.positions e.symbol with
  | none =>
      match latest_bar with
      | none => none
      | some bar =>
          some { p1 with
            positions := dictInsert p1.positions e.symbol
              { ty := (if e.direction = "BUY" then 0 else 1), volume := e.quantity,
                price_open := e.fill_price, price_current := e.fill_price,
                profit := -e.commission, open_time := bar.name } }
  | some existing_pos =>
      some { p1 with cash := p1.cash + existing_pos.profit,
                     positions := dictErase p1.positions e.symbol }

/-- The events the backtest loop dispatches to the `Portfolio`, each carrying
the data handler's latest bar at dispatch time.  `signal` leaves the
portfolio unchanged (`on_signal` only queues an `OrderEvent`). -/
inductive BEvent where
  | market (latest : Option PBar)
  | signal
  | fill (f : Fill) (latest : Option PBar)

def portfolioStep (p : BPortfolio) : BEvent → Option BPortfolio
  | .market latest => some (portfolioOnBar p latest)
  | .signal => some p
  | .fill f latest => portfolioOnFill p f latest

def portfolioRun (p : BPortfolio) : List BEvent → Option BPortfolio
  | [] => some p
  | e :: rest =>
      match portfolioStep p e with
      | none => none
      | some q => portfolioRun q rest

/-- Sum of the recorded profits of the open positions (the `Σ pos.profit` of
the specified invariant). -/
def posProfitSum (l : List (String × BPos)) : ℚ :=
  (l.map (fun sp => sp.2.profit)).sum

/-! ## SimulatedPortfolio (backtest_engine.py:20-136) -/

/-- The bar columns `SimulatedPortfolio.on_bar` reads. -/
structure SimBar where
  high : ℚ
  low : ℚ
  close : ℚ
  deriving Repr, DecidableEq

/-- A value of the `SimulatedPortfolio.positions` dict (keyed by the
uuid-string ticket).  The wall-clock `open_time` is omitted. -/
structure SPos where
  ticket : String
  symbol : String
  /-- 0 for buy, 1 for sell -/
  ty : ℤ
  volume : ℚ
  price_open : ℚ
  sl : ℚ
  tp : ℚ
  magic : ℤ
  price_current : ℚ
  profit : ℚ
  deriving Repr, DecidableEq

/-- `closed_trade = pos.copy(); closed_trade.update({'close_price': ...,
'profit': ...})` — the history row keeps the position's fields with
`close_price` added and `profit` overwritten (`close_time` omitted as
wall-clock). -/
structure ClosedTrade where
  pos : SPos
  close_price : ℚ
  profit : ℚ
  deriving Repr, DecidableEq

structure SimPortfolio where
  start_cash : ℚ
  cash : ℚ
  equity : ℚ
  positions : List (String × SPos)
  trade_history : List ClosedTrade
  deriving Repr, DecidableEq

/-- The profit formula shared by `on_bar` (lines 53-56, with the bar close)
and `close_position` (lines 116-119, with the close price). -/
def closeProfit (pos : SPos) (close_price : ℚ) : ℚ :=
  if pos.ty = 0 then (close_price - pos.price_open) * pos.volume * 100000
  else (pos.price_open - close_price) * pos.volume * 100000

/-- `SimulatedPortfolio.close_position` (backtest_engine.py:106-126): pop the
position, realize its profit at `close_price` into cash and append the closed
trade to the history; a missing ticket returns with nothing changed. -/
def simClosePosition (p : SimPortfolio) (ticket : String) (close_price : ℚ) :
    SimPortfolio :=
  match dictGet p.positions ticket with
  | none => p
  | some pos =>
      { p with positions := dictErase p.positions ticket,
               cash := p.cash + closeProfit pos close_price,
               trade_history := p.trade_history ++
                 [{ pos := pos, close_price := close_price,
                    profit := closeProfit pos close_price }] }

/-- The SL/TP check of `SimulatedPortfolio.on_bar` (backtest_engine.py:61-72):
the candidate close price for a position on this bar, `none` when no level is
touched. -/
def triggerLevel (pos : SPos) (bar : SimBar) : Option ℚ :=
  if pos.ty = 0 then
    if 0 < pos.sl ∧ bar.low ≤ pos.sl then some pos.sl
    else if 0 < pos.tp ∧ pos.tp ≤ bar.high then some pos.tp
    else none
  else
    if 0 < pos.sl ∧ pos.sl ≤ bar.high then some pos.sl
    else if 0 < pos.tp ∧ bar.low ≤ pos.tp then some pos.tp
    else none

/-- Python truthiness of the `close_price` local (`if close_price:`):
false for `None` and for `0.0`. -/
def pyTruthyQ : Option ℚ → Bool
  | none => false
  | some c => if c = 0 then false else true

/-- The loop body of `SimulatedPortfolio.on_bar`'s first pass: update the
position's profit and `price_current` from the bar close, accumulate
`current_equity`, and collect the ticket into `positions_to_close` when an
SL/TP level is touched. -/
def simBarStep (bar : SimBar)
    (a : List (String × SPos) × List (String × ℚ) × ℚ) (q : String × SPos) :
    List (String × SPos) × List (String × ℚ) × ℚ :=
  let profit := closeProfit q.2 bar.close
  let upd : SPos := { q.2 with profit := profit, price_current := bar.close }
  let cp := triggerLevel q.2 bar
  let toClose := if pyTruthyQ cp then a.2.1 ++ [(q.1, cp.getD 0)] else a.2.1
  (a.1 ++ [(q.1, upd)], toClose, a.2.2 + profit)

/-- `SimulatedPortfolio.on_bar` (backtest_engine.py:42-84).  One pass over the
positions snapshot updates each position's profit / `price_current` from the
bar close, accumulates `current_equity` (started at `self.cash`) and collects
`positions_to_close`; then each collected ticket is closed at its level via
`close_position` (whose own membership check subsumes the loop's
`if ticket in self.positions` recheck); finally `equity` is assigned the
accumulated value. -/
def simOnBar (p : SimPortfolio) (bar : SimBar) : SimPortfolio :=
  let step := p.positions.foldl (simBarStep bar) ([], [], p.cash)
  let p1 := { p with positions := step.1 }
  let p2 := step.2.1.foldl (fun q tc => simClosePosition q tc.1 tc.2) p1
  { p2 with equity := step.2.2 }

/-- A position as the first pass rewrites it: profit and `price_current`
refreshed from the bar close. -/
def updPos (bar : SimBar) (z : SPos) : SPos :=
  { z with profit := closeProfit z bar.close, price_current := bar.close }

/-- The first pass's per-position update. -/
def simUpd (bar : SimBar) (q : String × SPos) : String × SPos :=
  (q.1, updPos bar q.2)

/-- The first pass's per-position contribution to `positions_to_close`. -/
def simToClose (bar : SimBar) (q : String × SPos) : Option (String × ℚ) :=
  if pyTruthyQ (triggerLevel q.2 bar) then some (q.1, (triggerLevel q.2 bar).getD 0)
  else none

/-- The total profit `on_bar` realizes into cash on this bar: the sum of the
close profits of every position whose SL/TP level the bar touches. -/
def realizedOnBar (ps : List (String × SPos)) (bar : SimBar) : ℚ :=
  (ps.filterMap (fun q => (triggerLevel q.2 bar).map (fun L => closeProfit q.2 L))).sum

/-- The history rows `on_bar` appends on this bar: one closed trade per
touched position, filled exactly at its level, with the realized profit. -/
def closedOnBar (ps : List (String × SPos)) (bar : SimBar) : List ClosedTrade :=
  ps.filterMap (fun q => (triggerLevel q.2 bar).map (fun L =>
    { pos := updPos bar q.2, close_price := L, profit := closeProfit q.2 L }))

/-! ## Password at-rest (utils/core_utils.py:212-220)

The Fernet `cipher_suite` is external to the repository; it is embedded as an
abstract pair of partial functions where `none` models a raised exception
(`InvalidToken`, encode errors, ...).  The wrappers' own logic — the
empty-string short-circuits and the `except: return text` fallbacks — is
translated exactly. -/

structure Cipher where
  enc : String → Option String
  dec : String → Option String

/-- `encrypt_password`: `if not text: return ""`, else the ciphertext, or the
input itself when encryption raises. -/
def encrypt_password (cs : Cipher) (text : String) : String :=
  if text = "" then "" else (cs.enc text).getD text

/-- `decrypt_password`: `if not encrypted_text: return ""`, else the
plaintext, or the input itself when decryption raises. -/
def decrypt_password (cs : Cipher) (encrypted_text : String) : String :=
  if encrypted_text = "" then "" else (cs.dec encrypted_text).getD encrypted_text

/-- A concrete cipher satisfying the Fernet contract, used to instantiate the
round-trip theorem: prepend a marker character on encryption, strip it on
decryption and fail on anything not carrying it. -/
def toyCipher : Cipher where
  enc s := some (String.mk ('!' :: s.data))
  dec s :=
    match s.data with
    | '!' :: rest => some (String.mk rest)
    | _ => none

/-! ## Concrete scenario inputs used by the claim theorems -/

/-- Scenario S1's master trade, with integer prices: one open Buy position. -/
def s1MasterTrade : MTrade :=
  { ticket := 7001, symbol := "EURUSD", ty := 0, isPosition := true, volume := 1,
    price_open := 2, sl := 1, tp := 3, profit := 0, magic := 1, comment := "" }

/-- Scenario S1's follower config: forward mode, same volume, magic 99. -/
def s1Cfg : SlaveCfg :=
  { enabled := true, magic := 99 }

/-- A follower terminal where every symbol is selectable, `symbol_info`
returns nothing, and a tick is available. -/
def s1Env : MirrorEnv :=
  { symbol_select := fun _ => true, symbol_info := fun _ => none,
    tick := fun _ => some { ask := 2, bid := 2 } }

/-- A follower config carrying a per-master-symbol override
`EURUSD → (prefix, "m.")`. -/
def c8Map : List (String × (String × String)) :=
  [("EURUSD", ("prefix", "m."))]

/-- Backtest fill used for the C2/C4 runs. -/
def c2Fill : Fill :=
  { symbol := "EURUSD", direction := "BUY", quantity := 1, fill_price := 2,
    commission := 1 }

/-- The bar that moves the C2 run's position into profit. -/
def c2Bar : PBar := { close := 3, name := 1 }

/-- A portfolio with one open position carrying recorded profit 7, for the
`on_fill` witness. -/
def c2PosPortfolio : BPortfolio :=
  { initial_cash := 50, cash := 40, equity := 47,
    positions := [("EURUSD", { ty := 0, volume := 1, price_open := 2,
                               price_current := 3, profit := 7, open_time := 0 })] }

/-- C5 witness data: a mirrored follower position of master ticket 7001. -/
def c5Follower : MTrade :=
  { ticket := 501, symbol := "EURUSD", ty := 0, isPosition := true, volume := 1,
    price_open := 2, sl := 1, tp := 3, profit := 0, magic := 99, comment := "F 7001" }

/-- C5 witness data: the master position with a moved stop loss. -/
def c5Master : MTrade :=
  { ticket := 7001, symbol := "EURUSD", ty := 0, isPosition := true, volume := 1,
    price_open := 2, sl := 2, tp := 3, profit := 0, magic := 1, comment := "" }

/-- C5 witness data: the master once the follower has caught up. -/
def c5MasterAligned : MTrade := { c5Master with sl := 1 }

/-- C7 counterexample data: master volume 0.01 against a symbol whose
`volume_min` is 0.25 with step 0.1. -/
def c7Trade : MTrade :=
  { ticket := 8001, symbol := "EURUSD", ty := 0, isPosition := true, volume := 1/100,
    price_open := 2, sl := 0, tp := 0, profit := 0, magic := 1, comment := "" }

def c7Sym : SymInfo := { volume_step := 1/10, volume_min := 1/4, volume_max := 100 }

def c7Env : MirrorEnv :=
  { symbol_select := fun _ => true, symbol_info := fun _ => some c7Sym,
    tick := fun _ => none }

/-- A follower config in `equity_ratio` mode, for the C7 witness. -/
def c7RatioCfg : SlaveCfg :=
  { enabled := true, magic := 99, volume_mode := "equity_ratio" }

/-- C6 witness data: the follower trade that mirrors master ticket 7001
(follower magic, comment `"F 7001"`). -/
def c6MirrorTrade : MTrade :=
  { ticket := 601, symbol := "EURUSD", ty := 0, isPosition := true, volume := 1,
    price_open := 2, sl := 1, tp := 3, profit := 0, magic := 99, comment := "F 7001" }

/-- C10 witness data: a Buy position whose stop loss the bar's low reaches. -/
def c10Pos : SPos :=
  { ticket := "t1", symbol := "EURUSD", ty := 0, volume := 1, price_open := 2,
    sl := 1, tp := 0, magic := 0, price_current := 2, profit := 0 }

def c10Portfolio : SimPortfolio :=
  { start_cash := 100, cash := 100, equity := 100, positions := [("t1", c10Pos)],
    trade_history := [] }

def c10Bar : SimBar := { high := 2, low := 1, close := 2 }

/-- The effect of one `close_position` hit during the close-out pass. -/
def closeOut (bar : SimBar) (q : SimPortfolio) (z : String × SPos) (L : ℚ) :
    SimPortfolio :=
  { q with positions := dictErase q.positions z.1,
           cash := q.cash + closeProfit z.2 L,
           trade_history := q.trade_history ++
             [{ pos := updPos bar z.2, close_price := L,
                profit := closeProfit z.2 L }] }

/-- The only actions a capped account may still receive from a supervisor
cycle: its `locked` re-report on the direct path, or `inactive` when its
master group's connect fails. -/
def lockedQuiet (w : String) (a : WAction) : Prop :=
  WAction.acct a = w → a = .statusMsg w ("locked") ∨ a = .statusMsg w ("inactive")

/-- C3 data: a cycle environment in which every connect fails with
`invalidAuth` (1045) and no credential verification is pending. -/
def c3Env : CycleEnv :=
  { acct := fun _ =>
      { connect := .fail 1045, account_info := none, trades := [],
        mirror := { symbol_select := fun _ => true, symbol_info := fun _ => none,
                    tick := fun _ => none },
        alive := true },
    pendingVerify := [] }

/-- C3 data: one standalone logged-in account, no followers configured, a
clean failure record. -/
def c3State : WorkerState :=
  { fails := [], loggedIn := ["acct9"], strategyInstances := [], numSlaves := 0,
    config := fun _ => {}, slaveMap := fun _ => [] }

/-- C3 data: the same standalone account already over the failure cap. -/
def c3LockState : WorkerState :=
  { c3State with fails := [("acct9", 11)] }

/-- C3 data: the follower config of `slave1` in the increment run. -/
def c3bCfg : SlaveCfg := { enabled := true, magic := 7 }

/-- C3 data: `master1` and its eligible follower `slave1`, both logged in. -/
def c3bState : WorkerState :=
  { fails := [], loggedIn := ["master1", "slave1"], strategyInstances := [],
    numSlaves := 1,
    config := fun a => if a = "slave1" then c3bCfg else {},
    slaveMap := fun _ => [] }

/-- C3 data: the master's terminal is healthy; the follower's connect fails
with `invalidAuth`. -/
def c3bEnv : CycleEnv :=
  { acct := fun a =>
      if a = "master1" then
        { connect := .ok, account_info := some { equity := 1 }, trades := [],
          mirror := { symbol_select := fun _ => true, symbol_info := fun _ => none,
                      tick := fun _ => none },
          alive := true }
      else
        { connect := .fail 1045, account_info := none, trades := [],
          mirror := { symbol_select := fun _ => true, symbol_info := fun _ => none,
                      tick := fun _ => none },
          alive := true },
    pendingVerify := [] }

/-! # Theorems -/

/-- A fold whose step appends the optional yield of each element equals
appending the `filterMap` of the yields. -/
theorem foldl_opt_eq_filterMap {α β : Type} (step : List β → α → List β)
    (opt : α → Option β) (hstep : ∀ acc p, step acc p = acc ++ (opt p).toList)
    (l : List α) (acc : List β) :
    l.foldl step acc = acc ++ l.filterMap opt := by
  induction l generalizing acc with
  | nil => simp
  | cons x xs ih =>
      rw [List.foldl_cons, hstep, ih]
      cases h : opt x <;> simp [h]

/-- The SL/TP sweep's loop body appends exactly its optional yield. -/
theorem sltpStep_eq (masterDict : List (ℤ × MTrade)) (copyMode : String)
    (acc : List Request) (p : ℤ × MTrade) :
    sltpStep masterDict copyMode acc p = acc ++ (sltpOne masterDict copyMode p).toList := by
  simp only [sltpStep, sltpOne, needsSltpModify, expectedSlTp, sltpModReq]
  cases hmt : dictGet masterDict p.1 with
  | none => simp
  | some mt =>
      by_cases hc : sltpEps < |p.2.sl - (if copyMode = "reverse" then (mt.tp, mt.sl) else (mt.sl, mt.tp)).1| ∨
          sltpEps < |p.2.tp - (if copyMode = "reverse" then (mt.tp, mt.sl) else (mt.sl, mt.tp)).2|
      · by_cases hp : hasattrProfit p.2 <;> simp [hc, hp]
      · simp [hc]

theorem sltpRequests_eq_filterMap (mirrored masterDict : List (ℤ × MTrade))
    (copyMode : String) :
    sltpRequests mirrored masterDict copyMode
      = mirrored.filterMap (sltpOne masterDict copyMode) := by
  unfold sltpRequests
  rw [foldl_opt_eq_filterMap _ _ (sltpStep_eq masterDict copyMode) mirrored []]
  simp

/-- Claim C5: for every mirrored pair whose master ticket is still open, a
modify request — `SLTP` for positions, price-preserving `MODIFY` for
pendings, with the expected `(sl, tp)` swapped exactly in reverse mode — is
emitted iff follower SL or TP deviates by more than `1e-9`; and a cycle in
which no pair deviates emits zero modifications. -/
theorem C5_sltp_modify_iff (mirrored masterDict : List (ℤ × MTrade)) (copyMode : String) :
    (∀ p : ℤ × MTrade, p ∈ mirrored → ∀ mt, dictGet masterDict p.1 = some mt →
      needsSltpModify copyMode p.2 mt →
      sltpModReq copyMode p.2 mt ∈ sltpRequests mirrored masterDict copyMode) ∧
    (∀ r ∈ sltpRequests mirrored masterDict copyMode,
      ∃ p, p ∈ mirrored ∧ ∃ mt, dictGet masterDict p.1 = some mt ∧
        needsSltpModify copyMode p.2 mt ∧ r = sltpModReq copyMode p.2 mt) ∧
    ((∀ p : ℤ × MTrade, p ∈ mirrored → ∀ mt, dictGet masterDict p.1 = some mt →
        ¬ needsSltpModify copyMode p.2 mt) →
      sltpRequests mirrored masterDict copyMode = []) := by
  rw [sltpRequests_eq_filterMap]
  refine ⟨?_, ?_, ?_⟩
  · intro p hp mt hmt hneed
    exact List.mem_filterMap.2 ⟨p, hp, by simp [sltpOne, hmt, hneed]⟩
  · intro r hr
    rcases List.mem_filterMap.1 hr with ⟨p, hp, hone⟩
    refine ⟨p, hp, ?_⟩
    cases hmt : dictGet masterDict p.1 with
    | none => simp [sltpOne, hmt] at hone
    | some mt =>
        simp only [sltpOne, hmt] at hone
        by_cases hneed : needsSltpModify copyMode p.2 mt
        · rw [if_pos hneed] at hone
          exact ⟨mt, rfl, hneed, (Option.some.inj hone).symm⟩
        · rw [if_neg hneed] at hone; cases hone
  · intro hall
    apply List.filterMap_eq_nil_iff.2
    intro p hp
    simp only [sltpOne]
    cases hmt : dictGet masterDict p.1 with
    | none => rfl
    | some mt => simp only [hmt]; exact if_neg (hall p hp mt hmt)

/-- The open sweep's loop body appends exactly its optional yield. -/
theorem openStep_eq (mirrored : List (ℤ × MTrade)) (cfg : SlaveCfg)
    (slaveMap : List (String × (String × String))) (env : MirrorEnv)
    (mi si : AccInfo) (acc : List (ℤ × Request)) (p : ℤ × MTrade) :
    openStep mirrored cfg slaveMap env mi si acc p
      = acc ++ (openOne mirrored cfg slaveMap env mi si p).toList := by
  simp only [openStep, openOne]
  by_cases h1 : (dictGet mirrored p.1).isNone ∧ p.2.magic ≠ cfg.magic
  · rw [if_pos h1, if_pos h1]
    by_cases h2 : env.symbol_select (resolveSlaveSymbol slaveMap cfg.default_symbol_rule
        cfg.default_symbol_text p.2.symbol) = true
    · rw [if_pos h2, if_pos h2]
      rcases htt : (if cfg.copy_mode = "reverse" then typeMapReverse p.2.ty else some p.2.ty)
        with _ | tt
      · simp [htt]
      · simp [htt, hasattrPriceOpen]
    · rw [if_neg h2, if_neg h2]
      simp
  · rw [if_neg h1, if_neg h1]
    simp

theorem openRequests_eq_filterMap (masterDict mirrored : List (ℤ × MTrade))
    (cfg : SlaveCfg) (slaveMap : List (String × (String × String))) (env : MirrorEnv)
    (mi si : AccInfo) :
    openRequests masterDict mirrored cfg slaveMap env mi si
      = masterDict.filterMap (openOne mirrored cfg slaveMap env mi si) := by
  unfold openRequests
  rw [foldl_opt_eq_filterMap _ _ (openStep_eq mirrored cfg slaveMap env mi si) masterDict []]
  simp

/-- When a master trade passes every open-sweep guard, `openOne` yields the
pending request (the `hasattr(price_open)` branch) at the master's open
price with the computed volume. -/
theorem openOne_emits (mirrored : List (ℤ × MTrade)) (cfg : SlaveCfg)
    (slaveMap : List (String × (String × String))) (env : MirrorEnv)
    (mi si : AccInfo) (k : ℤ) (mt : MTrade) (tt : ℤ)
    (h1 : (dictGet mirrored k).isNone = true) (h2 : mt.magic ≠ cfg.magic)
    (h3 : env.symbol_select (resolveSlaveSymbol slaveMap cfg.default_symbol_rule
      cfg.default_symbol_text mt.symbol) = true)
    (htt : (if cfg.copy_mode = "reverse" then typeMapReverse mt.ty else some mt.ty)
      = some tt) :
    openOne mirrored cfg slaveMap env mi si (k, mt)
      = some (k,
        { action := .pending,
          symbol := resolveSlaveSymbol slaveMap cfg.default_symbol_rule
            cfg.default_symbol_text mt.symbol,
          volume := calculateVolume mt mi si cfg env
            (resolveSlaveSymbol slaveMap cfg.default_symbol_rule
              cfg.default_symbol_text mt.symbol),
          ty := tt,
          sl := (if cfg.copy_mode = "reverse" then (mt.tp, mt.sl) else (mt.sl, mt.tp)).1,
          tp := (if cfg.copy_mode = "reverse" then (mt.tp, mt.sl) else (mt.sl, mt.tp)).2,
          magic := cfg.magic, comment := "F " ++ toString k,
          deviation := cfg.deviation, price := mt.price_open }) := by
  simp only [openOne, h1, htt, hasattrPriceOpen, h3]
  simp [h2]

/-- Claim C7 counterexample: with master volume 0.01 against
`(min, step, max) = (0.25, 0.1, 100)` the code computes
`min 100 (round(max(0.25, 0.01) / 0.1) * 0.1) = 0.2`, which is below
`volume_min` — and the open sweep still emits the order with volume 0.2
instead of skipping the ticket. -/
theorem C7_below_min_volume_counterexample :
    calculateVolume c7Trade { equity := 1 } { equity := 1 } s1Cfg c7Env ("EURUSD") = 1/5 ∧
    (1/5 : ℚ) < c7Sym.volume_min ∧
    (openRequests (buildTradeDict [c7Trade]) [] s1Cfg [] c7Env { equity := 1 }
        { equity := 1 }).map (fun p => (p.1, p.2.volume)) = [(8001, 1/5)] := by
  have hr : roundHalfEven ((5:ℚ)/2) = 2 := by norm_num [roundHalfEven]
  have hcv : calculateVolume c7Trade { equity := 1 } { equity := 1 } s1Cfg c7Env
      ("EURUSD") = 1/5 := by
    norm_num [calculateVolume, c7Trade, c7Env, c7Sym, s1Cfg, hr, min_def, max_def]
  refine ⟨hcv, by norm_num [c7Sym], ?_⟩
  rw [openRequests_eq_filterMap]
  have hbd : buildTradeDict [c7Trade] = [(c7Trade.ticket, c7Trade)] := rfl
  rw [hbd, List.filterMap_cons,
    openOne_emits [] s1Cfg [] c7Env { equity := 1 } { equity := 1 } (c7Trade.ticket)
      c7Trade 0 rfl (by decide) rfl rfl]
  have hres : resolveSlaveSymbol [] (s1Cfg.default_symbol_rule)
      (s1Cfg.default_symbol_text) (c7Trade.symbol) = "EURUSD" := rfl
  simp only [List.filterMap_nil, List.map_cons, List.map_nil, hres, hcv]
  norm_num [c7Trade]

/-- Claim C7 (amended): the pre-clamp volume follows the configured mode
(master volume for same-as-master, fixed lot with 0.01 fallback on a
missing/unparseable value, equity ratio when both equities are positive);
when symbol info is available the final volume is
`min volume_max (round(max(volume_min, v) / step) * step)` — raised to the
minimum first, then rounded half-to-even, then capped — which can end up
below `volume_min`; and the open sweep sends every eligible order with
exactly this volume: there is no below-minimum skip. -/
theorem C7_volume_resolution (mt : MTrade) (mi si : AccInfo) (cfg : SlaveCfg)
    (env : MirrorEnv) (sym : String) :
    (cfg.volume_mode = "same_as_master" → volumeBase mt mi si cfg = mt.volume) ∧
    (cfg.volume_mode = "fixed_lot" →
      volumeBase mt mi si cfg = cfg.fixed_lot_size.getD (1/100)) ∧
    (cfg.volume_mode = "equity_ratio" → 0 < mi.equity → 0 < si.equity →
      volumeBase mt mi si cfg = mt.volume * (si.equity / mi.equity)) ∧
    (∀ info, env.symbol_info sym = some info →
      calculateVolume mt mi si cfg env sym
        = min info.volume_max
            ((roundHalfEven (max info.volume_min (volumeBase mt mi si cfg)
                / info.volume_step) : ℚ) * info.volume_step)) ∧
    (∀ masterDict mirrored slaveMap tt,
      (dictGet mirrored mt.ticket).isNone = true → mt.magic ≠ cfg.magic →
      env.symbol_select (resolveSlaveSymbol slaveMap cfg.default_symbol_rule
        cfg.default_symbol_text mt.symbol) = true →
      (if cfg.copy_mode = "reverse" then typeMapReverse mt.ty else some mt.ty) = some tt →
      (mt.ticket, mt) ∈ masterDict →
      ∃ r, (mt.ticket, r) ∈ openRequests masterDict mirrored cfg slaveMap env mi si ∧
        r.volume = calculateVolume mt mi si cfg env
          (resolveSlaveSymbol slaveMap cfg.default_symbol_rule
            cfg.default_symbol_text mt.symbol)) := by
  refine ⟨?_, ?_, ?_, ?_, ?_⟩
  · intro h
    simp [volumeBase, h]
  · intro h
    simp [volumeBase, h]
  · intro h hmi hsi
    simp [volumeBase, h, hmi, hsi]
  · intro info hinfo
    simp only [calculateVolume, volumeBase, hinfo]
  · intro masterDict mirrored slaveMap tt h1 h2 h3 htt hmem
    rw [openRequests_eq_filterMap]
    exact ⟨_, List.mem_filterMap.2 ⟨(mt.ticket, mt), hmem,
      openOne_emits mirrored cfg slaveMap env mi si mt.ticket mt tt h1 h2 h3 htt⟩, rfl⟩

/-- Witness for C7 (amended) at the 0.01-lot / 0.25-minimum scenario and an
equity-ratio config. -/
theorem C7_volume_resolution_witness :
    volumeBase c7Trade { equity := 1 } { equity := 1 } s1Cfg = c7Trade.volume ∧
    volumeBase c7Trade { equity := 2 } { equity := 1 } c7RatioCfg
      = c7Trade.volume * ((1:ℚ) / 2) ∧
    calculateVolume c7Trade { equity := 1 } { equity := 1 } s1Cfg c7Env ("EURUSD")
      = min c7Sym.volume_max
          ((roundHalfEven (max c7Sym.volume_min
              (volumeBase c7Trade { equity := 1 } { equity := 1 } s1Cfg)
              / c7Sym.volume_step) : ℚ) * c7Sym.volume_step) ∧
    (∃ r, (c7Trade.ticket, r) ∈ openRequests [(c7Trade.ticket, c7Trade)] [] s1Cfg []
        c7Env { equity := 1 } { equity := 1 } ∧
      r.volume = calculateVolume c7Trade { equity := 1 } { equity := 1 } s1Cfg c7Env
        (resolveSlaveSymbol [] (s1Cfg.default_symbol_rule) (s1Cfg.default_symbol_text)
          (c7Trade.symbol))) := by
  have h := C7_volume_resolution c7Trade { equity := 1 } { equity := 1 } s1Cfg c7Env
    ("EURUSD")
  have hq := C7_volume_resolution c7Trade { equity := 2 } { equity := 1 } c7RatioCfg
    c7Env ("EURUSD")
  exact ⟨h.1 rfl,
    hq.2.2.1 rfl (by decide) (by decide),
    h.2.2.2.1 c7Sym rfl,
    h.2.2.2.2 [(c7Trade.ticket, c7Trade)] [] [] 0 rfl (by decide) rfl rfl
      (List.mem_singleton.2 rfl)⟩

theorem dictGet_isNone_iff {κ α : Type} [DecidableEq κ] (d : List (κ × α)) (k : κ) :
    (dictGet d k).isNone = true ↔ k ∉ d.map Prod.fst := by
  induction d with
  | nil => simp [dictGet]
  | cons kv rest ih =>
      rw [List.map_cons, List.mem_cons]
      by_cases h : kv.1 = k
      · simp only [dictGet, if_pos h]
        simp [h]
      · simp only [dictGet, if_neg h]
        rw [ih]
        constructor
        · intro hk hor
          rcases hor with h1 | h1
          · exact h h1.symm
          · exact hk h1
        · intro hk h1
          exact hk (Or.inr h1)

theorem dictInsert_cons_self {κ α : Type} [DecidableEq κ] (k : κ) (v0 v : α)
    (rest : List (κ × α)) :
    dictInsert ((k, v0) :: rest) k v = (k, v) :: rest := by
  simp [dictInsert]

theorem dictInsert_cons_ne {κ α : Type} [DecidableEq κ] (k0 : κ) (v0 : α) (k : κ)
    (v : α) (rest : List (κ × α)) (h : k0 ≠ k) :
    dictInsert ((k0, v0) :: rest) k v = (k0, v0) :: dictInsert rest k v := by
  simp [dictInsert, h]

theorem mem_keys_dictInsert {κ α : Type} [DecidableEq κ] (d : List (κ × α))
    (k k2 : κ) (v : α) :
    k2 ∈ (dictInsert d k v).map Prod.fst ↔ k2 = k ∨ k2 ∈ d.map Prod.fst := by
  induction d with
  | nil => simp [dictInsert]
  | cons kv rest ih =>
      rcases kv with ⟨k0, v0⟩
      by_cases h : k0 = k
      · subst h
        rw [dictInsert_cons_self]
        simp only [List.map_cons, List.mem_cons]
        tauto
      · rw [dictInsert_cons_ne k0 v0 k v rest h]
        simp only [List.map_cons, List.mem_cons, ih]
        tauto

theorem nodup_keys_dictInsert {κ α : Type} [DecidableEq κ] (d : List (κ × α))
    (k : κ) (v : α) (h : (d.map Prod.fst).Nodup) :
    ((dictInsert d k v).map Prod.fst).Nodup := by
  induction d with
  | nil => simp [dictInsert]
  | cons kv rest ih =>
      rcases kv with ⟨k0, v0⟩
      rw [List.map_cons, List.nodup_cons] at h
      by_cases hk : k0 = k
      · subst hk
        rw [dictInsert_cons_self]
        rw [List.map_cons, List.nodup_cons]
        exact h
      · rw [dictInsert_cons_ne k0 v0 k v rest hk]
        rw [List.map_cons, List.nodup_cons]
        refine ⟨?_, ih h.2⟩
        intro hmem
        rcases (mem_keys_dictInsert rest k k0 v).1 hmem with h1 | h1
        · exact hk h1
        · exact h.1 h1

/-- `master_trades_dict` has one entry per ticket. -/
theorem buildTradeDict_nodup (trades : List MTrade) :
    (((buildTradeDict trades).map Prod.fst)).Nodup := by
  have hgen : ∀ (l : List MTrade) (d : List (ℤ × MTrade)), (d.map Prod.fst).Nodup →
      (((l.foldl (fun d t => dictInsert d t.ticket t) d).map Prod.fst)).Nodup := by
    intro l
    induction l with
    | nil => intro d h; simpa using h
    | cons t ts ih =>
        intro d h
        exact ih _ (nodup_keys_dictInsert d t.ticket t h)
  exact hgen trades [] (by simp)

/-- A successful open-sweep yield carries the loop's master ticket and
certifies that the ticket was not mirrored. -/
theorem openOne_some_key (mirrored : List (ℤ × MTrade)) (cfg : SlaveCfg)
    (slaveMap : List (String × (String × String))) (env : MirrorEnv)
    (mi si : AccInfo) (p : ℤ × MTrade) (q : ℤ × Request)
    (h : openOne mirrored cfg slaveMap env mi si p = some q) :
    q.1 = p.1 ∧ (dictGet mirrored p.1).isNone = true := by
  simp only [openOne] at h
  by_cases h1 : (dictGet mirrored p.1).isNone ∧ p.2.magic ≠ cfg.magic
  · refine ⟨?_, h1.1⟩
    rw [if_pos h1] at h
    by_cases h2 : env.symbol_select (resolveSlaveSymbol slaveMap cfg.default_symbol_rule
        cfg.default_symbol_text p.2.symbol) = true
    · rw [if_pos h2] at h
      rcases htt : (if cfg.copy_mode = "reverse" then typeMapReverse p.2.ty else some p.2.ty)
        with _ | tt
      · rw [htt] at h; cases h
      · rw [htt] at h
        simp only [hasattrPriceOpen, if_pos] at h
        cases h
        rfl
    · rw [if_neg h2] at h; cases h
  · rw [if_neg h1] at h; cases h

/-- Every request the open sweep emits is keyed by some master-dict key. -/
theorem openRequests_key_mem (masterDict mirrored : List (ℤ × MTrade)) (cfg : SlaveCfg)
    (slaveMap : List (String × (String × String))) (env : MirrorEnv) (mi si : AccInfo)
    (r : ℤ × Request) (h : r ∈ openRequests masterDict mirrored cfg slaveMap env mi si) :
    r.1 ∈ masterDict.map Prod.fst := by
  rw [openRequests_eq_filterMap] at h
  rcases List.mem_filterMap.1 h with ⟨p, hp, hone⟩
  rw [(openOne_some_key mirrored cfg slaveMap env mi si p r hone).1]
  exact List.mem_map_of_mem Prod.fst hp

/-- Claim C6: if every mirror present in cycle N is still present in cycle
N+1 and every open emitted in cycle N produced an observable mirror by cycle
N+1, then — with the master trades and terminal environment unchanged —
cycle N+1's open sweep emits nothing; moreover the sweep never emits an
order for an already-mirrored ticket and never emits two orders for the same
master ticket. -/
theorem C6_open_sweep_idempotent (masterTrades : List MTrade) (cfg : SlaveCfg)
    (slaveMap : List (String × (String × String))) (env : MirrorEnv)
    (mi si mi2 si2 : AccInfo) (tradesN tradesN1 : List MTrade)
    (H1 : ∀ t ∈ mirroredTickets tradesN cfg.magic, t ∈ mirroredTickets tradesN1 cfg.magic)
    (H2 : ∀ p ∈ openRequests (buildTradeDict masterTrades)
            (buildMirrored tradesN cfg.magic) cfg slaveMap env mi si,
          p.1 ∈ mirroredTickets tradesN1 cfg.magic) :
    openRequests (buildTradeDict masterTrades) (buildMirrored tradesN1 cfg.magic)
        cfg slaveMap env mi2 si2 = [] ∧
    (∀ t ∈ mirroredTickets tradesN cfg.magic, ∀ r,
        (t, r) ∉ openRequests (buildTradeDict masterTrades)
          (buildMirrored tradesN cfg.magic) cfg slaveMap env mi si) ∧
    (∀ t : ℤ, ((openRequests (buildTradeDict masterTrades)
        (buildMirrored tradesN cfg.magic) cfg slaveMap env mi si).filter
          (fun p => decide (p.1 = t))).length ≤ 1) := by
  refine ⟨?_, ?_, ?_⟩
  · rw [openRequests_eq_filterMap]
    apply List.filterMap_eq_nil_iff.2
    intro p hp
    by_cases h1 : (dictGet (buildMirrored tradesN1 cfg.magic) p.1).isNone
        ∧ p.2.magic ≠ cfg.magic
    · by_cases h2 : env.symbol_select (resolveSlaveSymbol slaveMap cfg.default_symbol_rule
          cfg.default_symbol_text p.2.symbol) = true
      · rcases htt : (if cfg.copy_mode = "reverse" then typeMapReverse p.2.ty
            else some p.2.ty) with _ | tt
        · simp only [openOne]
          rw [if_pos h1, if_pos h2, htt]
        · exfalso
          have hN : (dictGet (buildMirrored tradesN cfg.magic) p.1).isNone = true := by
            rw [dictGet_isNone_iff]
            intro hmemN
            exact ((dictGet_isNone_iff _ _).1 h1.1) (H1 p.1 hmemN)
          have hemit := openOne_emits (buildMirrored tradesN cfg.magic) cfg slaveMap env
            mi si p.1 p.2 tt hN h1.2 h2 htt
          have hmem := List.mem_filterMap.2 ⟨p, hp, hemit⟩
          rw [← openRequests_eq_filterMap] at hmem
          exact ((dictGet_isNone_iff _ _).1 h1.1) (H2 _ hmem)
      · simp only [openOne]
        rw [if_pos h1, if_neg h2]
    · simp only [openOne]
      rw [if_neg h1]
  · intro t ht r hmem
    rw [openRequests_eq_filterMap] at hmem
    rcases List.mem_filterMap.1 hmem with ⟨p, hp, hone⟩
    rcases openOne_some_key _ _ _ _ _ _ _ _ hone with ⟨hkey, hnone⟩
    rw [dictGet_isNone_iff] at hnone
    exact hnone (hkey ▸ ht)
  · intro t
    have hnd := buildTradeDict_nodup masterTrades
    rw [openRequests_eq_filterMap]
    generalize hd : buildTradeDict masterTrades = d at hnd
    clear hd
    induction d with
    | nil => simp
    | cons p rest ih =>
        rw [List.map_cons, List.nodup_cons] at hnd
        rw [List.filterMap_cons]
        cases hone : openOne (buildMirrored tradesN cfg.magic) cfg slaveMap env mi si p with
        | none => exact ih hnd.2
        | some q =>
            have hq := (openOne_some_key _ _ _ _ _ _ _ _ hone).1
            rw [List.filter_cons]
            by_cases hqt : q.1 = t
            · have hrest : (rest.filterMap (openOne (buildMirrored tradesN cfg.magic)
                  cfg slaveMap env mi si)).filter (fun p => decide (p.1 = t)) = [] := by
                apply List.filter_eq_nil_iff.2
                intro r hr
                rcases List.mem_filterMap.1 hr with ⟨p2, hp2, hone2⟩
                have hk2 := (openOne_some_key _ _ _ _ _ _ _ _ hone2).1
                simp only [decide_eq_true_eq]
                intro hrt
                apply hnd.1
                rw [← hq, hqt, ← hrt, hk2]
                exact List.mem_map_of_mem Prod.fst hp2
              simp [hqt, hrest]
            · rw [if_neg (by simp [hqt])]
              exact ih hnd.2

/-- Witness for C6: after cycle N's single open has become an observable
mirror (`"F 7001"`, magic 99), cycle N+1 emits zero orders. -/
theorem C6_open_sweep_idempotent_witness :
    openRequests (buildTradeDict [s1MasterTrade]) (buildMirrored [c6MirrorTrade] 99)
      s1Cfg [] s1Env { equity := 1 } { equity := 1 } = [] := by
  refine (C6_open_sweep_idempotent [s1MasterTrade] s1Cfg [] s1Env
    { equity := 1 } { equity := 1 } { equity := 1 } { equity := 1 } [] [c6MirrorTrade]
    (by decide) (by decide)).1

/-- In forward mode the expected pair is the master's own `(sl, tp)`. -/
theorem expectedSlTp_forward (mt : MTrade) : expectedSlTp ("forward") mt = (mt.sl, mt.tp) :=
  if_neg (by decide)

/-- Witness for C5: a moved master SL triggers exactly one `SLTP` modify, and
an aligned pair triggers none. -/
theorem C5_sltp_modify_iff_witness :
    (sltpModReq ("forward") c5Follower c5Master
      ∈ sltpRequests [(7001, c5Follower)] [(7001, c5Master)] ("forward")) ∧
    sltpRequests [(7001, c5Follower)] [(7001, c5MasterAligned)] ("forward") = [] := by
  constructor
  · refine (C5_sltp_modify_iff [(7001, c5Follower)] [(7001, c5Master)] ("forward")).1
      (7001, c5Follower) (by decide) c5Master (by decide) ?_
    simp only [needsSltpModify, expectedSlTp_forward, c5Follower, c5Master]
    refine Or.inl ?_
    norm_num [sltpEps]
  · apply (C5_sltp_modify_iff [(7001, c5Follower)] [(7001, c5MasterAligned)] ("forward")).2.2
    intro p hp mt hmt
    rw [List.mem_singleton] at hp
    subst hp
    simp only [dictGet, if_pos rfl] at hmt
    obtain rfl : c5MasterAligned = mt := Option.some.inj hmt
    simp only [needsSltpModify, expectedSlTp_forward, c5Follower, c5MasterAligned, c5Master]
    norm_num [sltpEps]

/-- The accumulator step of `Portfolio.on_bar`. -/
theorem portfolioOnBar_fold_spec (bar : PBar) (l : List (String × BPos))
    (a0 : List (String × BPos)) (q0 : ℚ) :
    (l.foldl
      (fun (a : List (String × BPos) × ℚ) sp =>
        let profit := barProfit sp.2.ty sp.2.price_open sp.2.volume bar.close
        (a.1 ++ [(sp.1, { sp.2 with profit := profit, price_current := bar.close })],
         a.2 + profit))
      (a0, q0)).2
    = q0 - posProfitSum a0
      + posProfitSum (l.foldl
          (fun (a : List (String × BPos) × ℚ) sp =>
            let profit := barProfit sp.2.ty sp.2.price_open sp.2.volume bar.close
            (a.1 ++ [(sp.1, { sp.2 with profit := profit, price_current := bar.close })],
             a.2 + profit))
          (a0, q0)).1 := by
  induction l generalizing a0 q0 with
  | nil => simp
  | cons x xs ih =>
      simp only [List.foldl_cons]
      rw [ih]
      simp [posProfitSum]

/-- Claim C2 (amended): after construction `equity = cash = initialCash`;
after a processed Market event whose symbol has a latest bar,
`equity = cash + Σ profit` over the open positions; `onFill` for a symbol
with no open position leaves `cash_new = cash_old - commission`, while with
an open position it leaves `cash_new = cash_old - commission + profit` of
that position (which is realized and removed). -/
theorem C2_portfolio_cash_equity (c : ℚ) (p : BPortfolio) (bar : PBar) (f : Fill) :
    ((mkPortfolio c).equity = c ∧ (mkPortfolio c).cash = c) ∧
    ((portfolioOnBar p (some bar)).equity
      = (portfolioOnBar p (some bar)).cash
        + posProfitSum (portfolioOnBar p (some bar)).positions) ∧
    (dictGet p.positions f.symbol = none →
      ∀ q, portfolioOnFill p f (some bar) = some q → q.cash = p.cash - f.commission) ∧
    (∀ pos, dictGet p.positions f.symbol = some pos →
      ∀ q lb, portfolioOnFill p f lb = some q →
        q.cash = p.cash - f.commission + pos.profit) := by
  refine ⟨⟨rfl, rfl⟩, ?_, ?_, ?_⟩
  · simp only [portfolioOnBar]
    rw [portfolioOnBar_fold_spec]
    simp [posProfitSum]
  · intro hnone q hq
    simp only [portfolioOnFill] at hq
    rw [hnone] at hq
    cases hq
    rfl
  · intro pos hsome q lb hq
    simp only [portfolioOnFill] at hq
    rw [hsome] at hq
    cases hq
    rfl

/-- Witness for C2: the fill branches applied at concrete portfolios. -/
theorem C2_portfolio_cash_equity_witness :
    (∃ q, portfolioOnFill (mkPortfolio 5) c2Fill (some c2Bar) = some q ∧
       q.cash = (mkPortfolio 5).cash - c2Fill.commission) ∧
    (∃ q, portfolioOnFill c2PosPortfolio c2Fill (some c2Bar) = some q ∧
       q.cash = c2PosPortfolio.cash - c2Fill.commission + 7) := by
  constructor
  · refine ⟨_, rfl, ?_⟩
    exact (C2_portfolio_cash_equity 5 (mkPortfolio 5) c2Bar c2Fill).2.2.1 rfl _ rfl
  · refine ⟨_, rfl, ?_⟩
    exact (C2_portfolio_cash_equity 5 c2PosPortfolio c2Bar c2Fill).2.2.2 _ rfl _ (some c2Bar) rfl

/-- Counterexample for C2 as stated: a Fill on a symbol that already has an
open position changes cash by `-commission + profit`, not by `-commission`.
Run: open EURUSD at 2 (commission 1), a bar closes at 3 (profit 100000),
then a second fill on EURUSD. -/
theorem C2_onfill_cash_counterexample :
    ∃ p1 p2, portfolioRun (mkPortfolio 10000)
        [.fill c2Fill (some { close := 2, name := 0 }), .market (some c2Bar)] = some p1 ∧
      portfolioOnFill p1 c2Fill (some c2Bar) = some p2 ∧
      p1.cash = 9999 ∧ p2.cash = 109998 ∧ ¬ p2.cash = p1.cash - c2Fill.commission := by
  refine ⟨_, _, rfl, rfl, ?_, ?_, ?_⟩ <;>
    norm_num [portfolioRun, portfolioStep, portfolioOnFill, portfolioOnBar, mkPortfolio,
      dictGet, dictInsert, dictErase, barProfit, c2Fill, c2Bar]

/-- Claim C4: evaluating `on_fill` at a state with an open EURUSD position
(recorded profit 7): the commission is debited and the profit realized, but
the positions dict ends up empty — no new position is opened at the fill
price. -/
theorem C4_onfill_closes_without_reopen :
    ∃ q, portfolioOnFill c2PosPortfolio c2Fill (some c2Bar) = some q ∧
      q.positions = [] ∧ dictGet q.positions (c2Fill.symbol) = none ∧
      q.cash = c2PosPortfolio.cash - c2Fill.commission + 7 := by
  refine ⟨_, rfl, ?_, ?_, ?_⟩ <;>
    norm_num [portfolioOnFill, c2PosPortfolio, c2Fill, dictGet, dictErase]

/-- Claim C9: `decrypt(encrypt(p)) = p` for every `p`, and `decrypt` returns
garbage (anything the cipher cannot decrypt) unchanged.  The cipher is
abstract, constrained by the Fernet contract: decryption inverts encryption,
tokens are nonempty, and a string that fails to encrypt (encode error) also
fails to decrypt. -/
theorem C9_password_roundtrip (cs : Cipher)
    (hrt : ∀ s e, cs.enc s = some e → cs.dec e = some s ∧ e ≠ "")
    (hfail : ∀ s, cs.enc s = none → cs.dec s = none) :
    (∀ p, decrypt_password cs (encrypt_password cs p) = p) ∧
    (∀ g, cs.dec g = none → decrypt_password cs g = g) := by
  constructor
  · intro p
    by_cases hp : p = ""
    · subst hp; simp [encrypt_password, decrypt_password]
    · rcases he : cs.enc p with _ | e
      · have hd := hfail p he
        simp [encrypt_password, decrypt_password, hp, he, hd]
      · rcases hrt p e he with ⟨hd, hne⟩
        simp [encrypt_password, decrypt_password, hp, he, hd, hne]
  · intro g hg
    by_cases hgg : g = ""
    · subst hgg; simp [decrypt_password]
    · simp [decrypt_password, hgg, hg]

/-- The toy cipher satisfies the Fernet round-trip contract. -/
theorem toyCipher_contract (s e : String) (he : toyCipher.enc s = some e) :
    toyCipher.dec e = some s ∧ e ≠ "" := by
  have he2 : String.mk ('!' :: s.data) = e := by
    simpa [toyCipher] using he
  subst he2
  refine ⟨rfl, ?_⟩
  intro hcon
  exact List.cons_ne_nil _ _ (congrArg String.data hcon)

/-- Witness for C9 at the toy cipher. -/
theorem C9_password_roundtrip_witness :
    decrypt_password toyCipher (encrypt_password toyCipher ("s3cret")) = "s3cret" ∧
    decrypt_password toyCipher ("garbage") = "garbage" := by
  have h := C9_password_roundtrip toyCipher toyCipher_contract
    (fun s hn => by simp [toyCipher] at hn)
  exact ⟨h.1 ("s3cret"), h.2 ("garbage") rfl⟩

/-- Claim C1: at scenario S1 (one open master Buy position, forward follower)
the open sweep emits a `TRADE_ACTION_PENDING` request at the master's
`price_open` — not the market deal at the follower's ask that the claim
requires — because `hasattr(master_trade, 'price_open')` also holds for
positions. -/
theorem C1_open_sweep_sends_pending_for_buy_position :
    openRequests (buildTradeDict [s1MasterTrade]) (buildMirrored [] 99) s1Cfg [] s1Env
      { equity := 1 } { equity := 1 }
    = [(7001, { action := .pending, symbol := "EURUSD", volume := 1, ty := 0,
                sl := 1, tp := 3, magic := 99, comment := "F 7001",
                deviation := 20, price := 2 })] := by
  decide

/-- Claim C8: with the override `EURUSD → (prefix, "m.")` the resolved
follower symbol stays `EURUSD` (the claim requires `m.EURUSD`), and the open
sweep sends the order on the unmodified symbol. -/
theorem C8_prefix_override_ignored :
    resolveSlaveSymbol c8Map ("none") ("") ("EURUSD") = "EURUSD" ∧
    resolveSlaveSymbol c8Map ("none") ("") ("EURUSD") ≠ "m.EURUSD" ∧
    (openRequests (buildTradeDict [s1MasterTrade]) [] s1Cfg c8Map s1Env
        { equity := 1 } { equity := 1 }).map (fun p => p.2.symbol) = ["EURUSD"] := by
  decide

/-! ## SimulatedPortfolio lemmas and claim C10 -/

/-- A touched SL/TP level is strictly positive (each branch guards on it). -/
theorem triggerLevel_pos (pos : SPos) (bar : SimBar) (L : ℚ)
    (h : triggerLevel pos bar = some L) : 0 < L := by
  unfold triggerLevel at h
  by_cases hty : pos.ty = 0
  · rw [if_pos hty] at h
    by_cases h1 : 0 < pos.sl ∧ bar.low ≤ pos.sl
    · rw [if_pos h1] at h; cases h; exact h1.1
    · rw [if_neg h1] at h
      by_cases h2 : 0 < pos.tp ∧ pos.tp ≤ bar.high
      · rw [if_pos h2] at h; cases h; exact h2.1
      · rw [if_neg h2] at h; cases h
  · rw [if_neg hty] at h
    by_cases h1 : 0 < pos.sl ∧ pos.sl ≤ bar.high
    · rw [if_pos h1] at h; cases h; exact h1.1
    · rw [if_neg h1] at h
      by_cases h2 : 0 < pos.tp ∧ bar.low ≤ pos.tp
      · rw [if_pos h2] at h; cases h; exact h2.1
      · rw [if_neg h2] at h; cases h

/-- The Python truthiness check on `close_price` is equivalent to the level
being touched (levels are positive, so never the falsy `0.0`). -/
theorem simToClose_eq (bar : SimBar) (q : String × SPos) :
    simToClose bar q = (triggerLevel q.2 bar).map (fun L => (q.1, L)) := by
  unfold simToClose
  cases htr : triggerLevel q.2 bar with
  | none => simp [pyTruthyQ]
  | some L =>
      have hL := triggerLevel_pos q.2 bar L htr
      simp [pyTruthyQ, hL.ne.symm]

theorem simBarStep_eq (bar : SimBar)
    (a : List (String × SPos) × List (String × ℚ) × ℚ) (q : String × SPos) :
    simBarStep bar a q
      = (a.1 ++ [simUpd bar q], a.2.1 ++ (simToClose bar q).toList,
         a.2.2 + closeProfit q.2 bar.close) := by
  unfold simBarStep simUpd updPos simToClose
  by_cases h : pyTruthyQ (triggerLevel q.2 bar) = true
  · simp [h]
  · simp [h]

theorem simBarFold_parts (bar : SimBar) (l : List (String × SPos))
    (a1 : List (String × SPos)) (a2 : List (String × ℚ)) (a3 : ℚ) :
    (l.foldl (simBarStep bar) (a1, a2, a3)).1 = a1 ++ l.map (simUpd bar) ∧
    (l.foldl (simBarStep bar) (a1, a2, a3)).2.1 = a2 ++ l.filterMap (simToClose bar) := by
  induction l generalizing a1 a2 a3 with
  | nil => simp
  | cons z rest ih =>
      rw [List.foldl_cons, simBarStep_eq]
      rcases ih (a1 ++ [simUpd bar z]) (a2 ++ (simToClose bar z).toList)
        (a3 + closeProfit z.2 bar.close) with ⟨h1, h2⟩
      constructor
      · rw [h1]; simp
      · rw [h2]
        cases h : simToClose bar z <;> simp [h]

theorem dictGet_append_not_mem {κ α : Type} [DecidableEq κ] (X d : List (κ × α))
    (k : κ) (h : k ∉ X.map Prod.fst) : dictGet (X ++ d) k = dictGet d k := by
  induction X with
  | nil => rfl
  | cons kv rest ih =>
      rcases kv with ⟨k0, v0⟩
      rw [List.map_cons, List.mem_cons] at h
      push_neg at h
      rw [List.cons_append]
      simp only [dictGet]
      rw [if_neg (fun he => h.1 he.symm)]
      exact ih h.2

theorem dictErase_append_not_mem {κ α : Type} [DecidableEq κ] (X d : List (κ × α))
    (k : κ) (h : k ∉ X.map Prod.fst) : dictErase (X ++ d) k = X ++ dictErase d k := by
  induction X with
  | nil => rfl
  | cons kv rest ih =>
      rcases kv with ⟨k0, v0⟩
      rw [List.map_cons, List.mem_cons] at h
      push_neg at h
      rw [List.cons_append]
      simp only [dictErase]
      rw [if_neg (fun he => h.1 he.symm)]
      rw [ih h.2, List.cons_append]

/-- Two entries of a key-nodup dict with the same key carry the same value. -/
theorem nodup_keys_mem_unique {κ α : Type} [DecidableEq κ] (l : List (κ × α))
    (k : κ) (a b : α) (h : (l.map Prod.fst).Nodup)
    (ha : (k, a) ∈ l) (hb : (k, b) ∈ l) : a = b := by
  induction l with
  | nil => cases ha
  | cons kv rest ih =>
      rw [List.map_cons, List.nodup_cons] at h
      rcases List.mem_cons.1 ha with ha1 | ha1 <;> rcases List.mem_cons.1 hb with hb1 | hb1
      · have hab : (k, a) = (k, b) := ha1.trans hb1.symm
        exact congrArg Prod.snd hab
      · exfalso
        apply h.1
        have hk : k = kv.1 := congrArg Prod.fst ha1
        rw [← hk]
        exact List.mem_map.2 ⟨(k, b), hb1, rfl⟩
      · exfalso
        apply h.1
        have hk : k = kv.1 := congrArg Prod.fst hb1
        rw [← hk]
        exact List.mem_map.2 ⟨(k, a), ha1, rfl⟩
      · exact ih h.2 ha1 hb1

theorem keys_map_simUpd (bar : SimBar) (ps : List (String × SPos)) :
    (ps.map (simUpd bar)).map Prod.fst = ps.map Prod.fst := by
  induction ps with
  | nil => rfl
  | cons z rest ih => simp [simUpd, ih]

/-- The close-out pass of `on_bar`: folding `close_position` over the
collected `(ticket, level)` pairs realizes each touched position's profit
into cash, appends the closed trades in order, and removes exactly the
touched positions. -/
theorem simCloseFold_spec (bar : SimBar) (ps : List (String × SPos)) :
    ∀ (X : List (String × SPos)) (q : SimPortfolio),
    q.positions = X ++ ps.map (simUpd bar) →
    (∀ k ∈ X.map Prod.fst, k ∉ ps.map Prod.fst) →
    (ps.map Prod.fst).Nodup →
    ((ps.filterMap (simToClose bar)).foldl
        (fun r tc => simClosePosition r tc.1 tc.2) q).cash
      = q.cash + realizedOnBar ps bar ∧
    ((ps.filterMap (simToClose bar)).foldl
        (fun r tc => simClosePosition r tc.1 tc.2) q).trade_history
      = q.trade_history ++ closedOnBar ps bar ∧
    ((ps.filterMap (simToClose bar)).foldl
        (fun r tc => simClosePosition r tc.1 tc.2) q).positions
      = X ++ (ps.filter (fun z => (triggerLevel z.2 bar).isNone)).map (simUpd bar) := by
  induction ps with
  | nil =>
      intro X q hq hdisj hnd
      simp [realizedOnBar, closedOnBar, hq]
  | cons z rest ih =>
      intro X q hq hdisj hnd
      rw [List.map_cons, List.nodup_cons] at hnd
      rw [List.filterMap_cons, simToClose_eq]
      cases htr : triggerLevel z.2 bar with
      | none =>
          simp only [Option.map_none']
          have hq2 : q.positions = (X ++ [simUpd bar z]) ++ rest.map (simUpd bar) := by
            rw [hq, List.map_cons]
            simp
          have hdisj2 : ∀ k ∈ (X ++ [simUpd bar z]).map Prod.fst,
              k ∉ rest.map Prod.fst := by
            intro k hk
            rw [List.map_append, List.mem_append] at hk
            rcases hk with hk | hk
            · intro hr
              exact hdisj k hk (by simp [hr])
            · simp [simUpd] at hk
              rw [hk]
              exact hnd.1
          rcases ih (X ++ [simUpd bar z]) q hq2 hdisj2 hnd.2 with ⟨hc, hh, hp⟩
          refine ⟨?_, ?_, ?_⟩
          · rw [hc]
            simp [realizedOnBar, htr]
          · rw [hh]
            simp [closedOnBar, htr]
          · rw [hp, List.filter_cons_of_pos (by simp [htr])]
            simp
      | some L =>
          simp only [Option.map_some']
          rw [List.foldl_cons]
          have hz1 : z.1 ∉ X.map Prod.fst := fun hmem => hdisj z.1 hmem (by simp)
          have hget : dictGet q.positions z.1 = some (updPos bar z.2) := by
            rw [hq, List.map_cons, dictGet_append_not_mem _ _ _ hz1]
            simp [simUpd, dictGet]
          have hstep : simClosePosition q z.1 L = closeOut bar q z L := by
            unfold simClosePosition closeOut
            rw [hget]
            rfl
          have herase : dictErase q.positions z.1 = X ++ rest.map (simUpd bar) := by
            rw [hq, List.map_cons, dictErase_append_not_mem _ _ _ hz1]
            simp [simUpd, dictErase]
          rw [hstep]
          have hdisj2 : ∀ k ∈ X.map Prod.fst, k ∉ rest.map Prod.fst := by
            intro k hk hr
            exact hdisj k hk (by simp [hr])
          rcases ih X (closeOut bar q z L) herase hdisj2 hnd.2 with ⟨hc, hh, hp⟩
          refine ⟨?_, ?_, ?_⟩
          · rw [hc]
            have hrb : realizedOnBar (z :: rest) bar
                = closeProfit z.2 L + realizedOnBar rest bar := by
              simp [realizedOnBar, htr]
            rw [hrb]
            show q.cash + closeProfit z.2 L + realizedOnBar rest bar
              = q.cash + (closeProfit z.2 L + realizedOnBar rest bar)
            ring
          · rw [hh]
            have hcb : closedOnBar (z :: rest) bar
                = { pos := updPos bar z.2, close_price := L, profit := closeProfit z.2 L }
                    :: closedOnBar rest bar := by
              simp [closedOnBar, htr]
            rw [hcb]
            simp [closeOut]
          · rw [hp, List.filter_cons_of_neg (by simp [htr])]

/-- Claim C10: on each bar, every open position whose SL/TP the bar's range
touches is closed at exactly that level: its realized profit is added to
cash (all touched positions together), the closed trade is appended to the
history with the level as close price, and the position is removed. -/
theorem C10_sim_sl_tp_close (p : SimPortfolio) (bar : SimBar)
    (hnd : (p.positions.map Prod.fst).Nodup) :
    (simOnBar p bar).cash = p.cash + realizedOnBar p.positions bar ∧
    (simOnBar p bar).trade_history = p.trade_history ++ closedOnBar p.positions bar ∧
    (∀ tk pos L, (tk, pos) ∈ p.positions → triggerLevel pos bar = some L →
      dictGet (simOnBar p bar).positions tk = none ∧
      ∃ ct ∈ (simOnBar p bar).trade_history,
        ct.pos.ticket = pos.ticket ∧ ct.close_price = L ∧
        ct.profit = closeProfit pos L) := by
  have hparts := simBarFold_parts bar p.positions [] [] p.cash
  have hclose := simCloseFold_spec bar p.positions []
    { p with positions := p.positions.map (simUpd bar) } (by simp) (by simp) hnd
  have hcash : (simOnBar p bar).cash = p.cash + realizedOnBar p.positions bar := by
    unfold simOnBar
    simp only [hparts.1, hparts.2, List.nil_append]
    exact hclose.1
  have hhist : (simOnBar p bar).trade_history
      = p.trade_history ++ closedOnBar p.positions bar := by
    unfold simOnBar
    simp only [hparts.1, hparts.2, List.nil_append]
    exact hclose.2.1
  have hpos : (simOnBar p bar).positions
      = (p.positions.filter (fun z => (triggerLevel z.2 bar).isNone)).map
          (simUpd bar) := by
    unfold simOnBar
    simp only [hparts.1, hparts.2, List.nil_append]
    rw [hclose.2.2]
    simp
  refine ⟨hcash, hhist, ?_⟩
  intro tk pos L hmem htr
  constructor
  · rw [← Option.isNone_iff_eq_none, hpos, dictGet_isNone_iff, keys_map_simUpd]
    intro hk
    rcases List.mem_map.1 hk with ⟨z, hzf, hz1⟩
    rcases List.mem_filter.1 hzf with ⟨hzmem, hznone⟩
    have hz : z = (tk, z.2) := by
      rw [← hz1]
    have : z.2 = pos := by
      apply nodup_keys_mem_unique p.positions tk z.2 pos hnd
      · rw [← hz]; exact hzmem
      · exact hmem
    rw [this, htr] at hznone
    simp at hznone
  · rw [hhist]
    refine ⟨{ pos := updPos bar pos, close_price := L, profit := closeProfit pos L },
            ⟨List.mem_append_right _ ?_, rfl, rfl, rfl⟩⟩
    apply List.mem_filterMap.2
    exact ⟨(tk, pos), hmem, by simp [htr]⟩

/-- Witness for C10: the bar's low touches the Buy position's stop loss; the
position closes at the SL with the realized profit booked. -/
theorem C10_sim_sl_tp_close_witness :
    (simOnBar c10Portfolio c10Bar).cash
      = c10Portfolio.cash + realizedOnBar (c10Portfolio.positions) c10Bar ∧
    dictGet (simOnBar c10Portfolio c10Bar).positions ("t1") = none ∧
    (∃ ct ∈ (simOnBar c10Portfolio c10Bar).trade_history,
      ct.pos.ticket = c10Pos.ticket ∧ ct.close_price = 1 ∧
      ct.profit = closeProfit c10Pos 1) := by
  have h := C10_sim_sl_tp_close c10Portfolio c10Bar (by decide)
  have h3 := h.2.2 ("t1") c10Pos 1 (by decide) (by decide)
  exact ⟨h.1, h3.1, h3.2⟩

/-! ## C3: supervisor lockout across cycles -/

theorem tracedFold_nil {σ α : Type} (f : σ → α → σ × List WAction)
    (p : σ × List WAction) : tracedFold f [] p = p :=
  rfl

theorem tracedFold_cons {σ α : Type} (f : σ → α → σ × List WAction) (x : α)
    (xs : List α) (s0 : σ) (t0 : List WAction) :
    tracedFold f (x :: xs) (s0, t0) = tracedFold f xs ((f s0 x).1, t0 ++ (f s0 x).2) :=
  rfl

/-- Invariant/trace engine for the cycle's loops: if every step taken from an
element of `l` preserves `P` on the state and emits only `Q`-actions, the
whole traced fold does. -/
theorem tracedFold_inv {σ α : Type} (f : σ → α → σ × List WAction)
    (P : σ → Prop) (Q : WAction → Prop) :
    ∀ (l : List α),
      (∀ s x, x ∈ l → P s → P (f s x).1 ∧ ∀ a ∈ (f s x).2, Q a) →
      ∀ (s0 : σ) (t0 : List WAction), P s0 → (∀ a ∈ t0, Q a) →
      P (tracedFold f l (s0, t0)).1 ∧ ∀ a ∈ (tracedFold f l (s0, t0)).2, Q a := by
  intro l
  induction l with
  | nil => intro _ s0 t0 h0 ht; exact ⟨h0, ht⟩
  | cons x xs ih =>
      intro hstep s0 t0 h0 ht
      have hx := hstep s0 x (List.mem_cons_self x xs) h0
      exact ih (fun s y hy => hstep s y (List.mem_cons_of_mem x hy))
        (f s0 x).1 (t0 ++ (f s0 x).2) hx.1 (by
          intro a ha
          rcases List.mem_append.1 ha with h | h
          · exact ht a h
          · exact hx.2 a h)

theorem dictGet_dictInsert_self {κ α : Type} [DecidableEq κ]
    (d : List (κ × α)) (k : κ) (v : α) :
    dictGet (dictInsert d k v) k = some v := by
  induction d with
  | nil => simp [dictInsert, dictGet]
  | cons kv rest ih =>
      rcases kv with ⟨k0, v0⟩
      by_cases h : k0 = k
      · subst h; simp [dictInsert, dictGet]
      · simp [dictInsert, dictGet, h, ih]

theorem dictGet_dictInsert_ne {κ α : Type} [DecidableEq κ]
    (d : List (κ × α)) (k k2 : κ) (v : α) (h : k ≠ k2) :
    dictGet (dictInsert d k v) k2 = dictGet d k2 := by
  induction d with
  | nil => simp [dictInsert, dictGet, h]
  | cons kv rest ih =>
      rcases kv with ⟨k0, v0⟩
      by_cases h0 : k0 = k
      · subst h0; simp [dictInsert, dictGet, h]
      · simp [dictInsert, dictGet, h0, ih]

theorem getFail_dictInsert_self (fs : List (String × ℕ)) (k : String) (n : ℕ) :
    getFail (dictInsert fs k n) k = n := by
  simp [getFail, dictGet_dictInsert_self]

theorem getFail_dictInsert_ne (fs : List (String × ℕ)) (k w : String) (n : ℕ)
    (h : k ≠ w) : getFail (dictInsert fs k n) w = getFail fs w := by
  simp [getFail, dictGet_dictInsert_ne _ _ _ _ h]

theorem connectActions_acct (x : String) (c : ConnRes) :
    ∀ a ∈ connectActions x c, WAction.acct a = x := by
  intro a ha
  cases c <;> simp [connectActions] at ha
  · subst ha; rfl
  · subst ha; rfl
  · rcases ha with h | h <;> subst h <;> rfl

theorem detailActions_acct (x : String) (e : AcctEnv) :
    ∀ a ∈ detailActions x e, WAction.acct a = x := by
  intro a ha
  cases hinfo : e.account_info <;> simp [detailActions, hinfo] at ha <;>
    subst ha <;> rfl

theorem copyTradesForSlave_acct (fails : List (String × ℕ)) (sid : String)
    (cfg : SlaveCfg) (md : List (ℤ × MTrade)) (mi : AccInfo)
    (sm : List (String × (String × String))) (e : AcctEnv) :
    ∀ a ∈ (copyTradesForSlave fails sid cfg md mi sm e).2, WAction.acct a = sid := by
  intro a ha
  simp only [copyTradesForSlave] at ha
  by_cases hen : cfg.enabled = false
  · rw [if_pos hen] at ha
    simp at ha; subst ha; rfl
  · rw [if_neg hen] at ha
    by_cases hcn : e.connect ≠ .ok
    · rw [if_pos hcn] at ha
      exact connectActions_acct sid e.connect a ha
    · rw [if_neg hcn] at ha
      rcases hinfo : e.account_info with _ | si <;> simp only [hinfo] at ha
      · rcases List.mem_append.1 ha with h | h
        · rcases List.mem_append.1 h with h2 | h2
          · exact connectActions_acct sid e.connect a h2
          · exact detailActions_acct sid e a h2
        · simp at h; subst h; rfl
      · rcases List.mem_append.1 ha with h | h
        · rcases List.mem_append.1 h with h2 | h2
          · rcases List.mem_append.1 h2 with h3 | h3
            · exact connectActions_acct sid e.connect a h3
            · exact detailActions_acct sid e a h3
          · simp at h2; subst h2; rfl
        · rcases List.mem_map.1 h with ⟨r, _, hr⟩
          subst hr; rfl

theorem copyTradesForSlave_fails_ne (fails : List (String × ℕ)) (sid : String)
    (cfg : SlaveCfg) (md : List (ℤ × MTrade)) (mi : AccInfo)
    (sm : List (String × (String × String))) (e : AcctEnv) (w : String)
    (h : sid ≠ w) :
    getFail (copyTradesForSlave fails sid cfg md mi sm e).1 w = getFail fails w := by
  simp only [copyTradesForSlave]
  by_cases hen : cfg.enabled = false
  · rw [if_pos hen]
  · rw [if_neg hen]
    by_cases hcn : e.connect ≠ .ok
    · rw [if_pos hcn]
      exact getFail_dictInsert_ne _ _ _ _ h
    · rw [if_neg hcn]
      rcases hinfo : e.account_info with _ | si <;> simp only [hinfo] <;>
        exact getFail_dictInsert_ne _ _ _ _ h

theorem copyTradesForSlave_connfail (fails : List (String × ℕ)) (sid : String)
    (cfg : SlaveCfg) (md : List (ℤ × MTrade)) (mi : AccInfo)
    (sm : List (String × (String × String))) (e : AcctEnv)
    (hen : cfg.enabled = true) (hcn : e.connect ≠ .ok) :
    copyTradesForSlave fails sid cfg md mi sm e =
      (dictInsert fails sid (getFail fails sid + 1), connectActions sid e.connect) := by
  simp [copyTradesForSlave, hen, hcn]

theorem slaveStep_capped (env : String → AcctEnv) (md : List (ℤ × MTrade))
    (mi : AccInfo) (s : WorkerState) (sid : String) (cfg : SlaveCfg)
    (h : MAXF ≤ getFail s.fails sid) :
    slaveStep env md mi s (sid, cfg) = (s, [.statusMsg sid ("locked")]) := by
  simp [slaveStep, h]

theorem slaveStep_run (env : String → AcctEnv) (md : List (ℤ × MTrade))
    (mi : AccInfo) (s : WorkerState) (sid : String) (cfg : SlaveCfg)
    (h : ¬ MAXF ≤ getFail s.fails sid) :
    slaveStep env md mi s (sid, cfg) =
      ({ s with fails := (copyTradesForSlave s.fails sid cfg md mi
            (s.slaveMap sid) (env sid)).1 },
       (copyTradesForSlave s.fails sid cfg md mi (s.slaveMap sid) (env sid)).2) := by
  simp [slaveStep, h]

theorem masterGroupStep_notLogged (env : String → AcctEnv) (s : WorkerState)
    (mId : String) (slaves : List (String × SlaveCfg)) (h : mId ∉ s.loggedIn) :
    masterGroupStep env s (mId, slaves) = (s, []) := by
  simp [masterGroupStep, h]

theorem masterGroupStep_capped (env : String → AcctEnv) (s : WorkerState)
    (mId : String) (slaves : List (String × SlaveCfg))
    (h1 : mId ∈ s.loggedIn) (h2 : MAXF ≤ getFail s.fails mId) :
    masterGroupStep env s (mId, slaves) = (s, [.statusMsg mId ("locked")]) := by
  simp [masterGroupStep, h1, h2]

theorem masterGroupStep_connfail (env : String → AcctEnv) (s : WorkerState)
    (mId : String) (slaves : List (String × SlaveCfg))
    (h1 : mId ∈ s.loggedIn) (h2 : ¬ MAXF ≤ getFail s.fails mId)
    (h3 : (env mId).connect ≠ .ok) :
    masterGroupStep env s (mId, slaves) =
      ({ s with fails :=
          if (env mId).connect = .fail 1045 then
            dictInsert (dictInsert s.fails mId (getFail s.fails mId + 1)) mId (MAXF + 1)
          else dictInsert s.fails mId (getFail s.fails mId + 1) },
       connectActions mId ((env mId).connect)
         ++ slaves.map (fun s2 => .statusMsg s2.1 ("inactive"))) := by
  simp [masterGroupStep, h1, h2, h3]

theorem masterGroupStep_ok_noinfo (env : String → AcctEnv) (s : WorkerState)
    (mId : String) (slaves : List (String × SlaveCfg))
    (h1 : mId ∈ s.loggedIn) (h2 : ¬ MAXF ≤ getFail s.fails mId)
    (h3 : (env mId).connect = .ok) (h4 : (env mId).account_info = none) :
    masterGroupStep env s (mId, slaves) =
      ({ s with fails := dictInsert s.fails mId 0 },
       connectActions mId ((env mId).connect) ++ detailActions mId (env mId)
         ++ [.statusMsg mId ("connected")]) := by
  simp [masterGroupStep, h1, h2, h3, h4]

theorem masterGroupStep_ok_info (env : String → AcctEnv) (s : WorkerState)
    (mId : String) (slaves : List (String × SlaveCfg)) (mi : AccInfo)
    (h1 : mId ∈ s.loggedIn) (h2 : ¬ MAXF ≤ getFail s.fails mId)
    (h3 : (env mId).connect = .ok) (h4 : (env mId).account_info = some mi) :
    masterGroupStep env s (mId, slaves) =
      tracedFold (slaveStep env (buildTradeDict ((env mId).trades)) mi) slaves
        ({ s with fails := dictInsert s.fails mId 0 },
         connectActions mId ((env mId).connect) ++ detailActions mId (env mId)
           ++ [.statusMsg mId ("connected")]) := by
  simp [masterGroupStep, h1, h2, h3, h4]

theorem otherAcctStep_copyId (env : String → AcctEnv) (copyIds : List String)
    (s : WorkerState) (x : String) (h : x ∈ copyIds) :
    otherAcctStep env copyIds s x = (s, []) := by
  simp [otherAcctStep, h]

theorem otherAcctStep_capped (env : String → AcctEnv) (copyIds : List String)
    (s : WorkerState) (x : String) (h1 : x ∉ copyIds)
    (h2 : MAXF ≤ getFail s.fails x) :
    otherAcctStep env copyIds s x = (s, [.statusMsg x ("locked")]) := by
  simp [otherAcctStep, h1, h2]

theorem otherAcctStep_ok (env : String → AcctEnv) (copyIds : List String)
    (s : WorkerState) (x : String) (h1 : x ∉ copyIds)
    (h2 : ¬ MAXF ≤ getFail s.fails x) (h3 : (env x).connect = .ok) :
    otherAcctStep env copyIds s x =
      (if x ∈ s.strategyInstances then
        if (env x).alive = false then
          ({ s with fails := dictInsert s.fails x 0,
                    strategyInstances := s.strategyInstances.filter (fun y => y ≠ x) },
           connectActions x ((env x).connect) ++ detailActions x (env x)
             ++ [.statusMsg x ("error")])
        else
          ({ s with fails := dictInsert s.fails x 0 },
           connectActions x ((env x).connect) ++ detailActions x (env x)
             ++ [.statusMsg x ("strategy_running")])
      else
        ({ s with fails := dictInsert s.fails x 0 },
         connectActions x ((env x).connect) ++ detailActions x (env x)
           ++ [.statusMsg x ("connected")])) := by
  simp [otherAcctStep, h1, h2, h3]

theorem otherAcctStep_fail45 (env : String → AcctEnv) (copyIds : List String)
    (s : WorkerState) (x : String) (h1 : x ∉ copyIds)
    (h2 : ¬ MAXF ≤ getFail s.fails x) (h3 : (env x).connect = .fail 1045) :
    otherAcctStep env copyIds s x =
      ({ s with fails :=
          dictInsert (dictInsert s.fails x (getFail s.fails x + 1)) x (MAXF + 1) },
       connectActions x ((env x).connect)
         ++ (if x ∈ s.strategyInstances then [.taskStop x] else [])) := by
  simp [otherAcctStep, h1, h2, h3]

theorem otherAcctStep_failOther (env : String → AcctEnv) (copyIds : List String)
    (s : WorkerState) (x : String) (h1 : x ∉ copyIds)
    (h2 : ¬ MAXF ≤ getFail s.fails x) (h3 : ¬ (env x).connect = .ok)
    (h4 : ¬ (env x).connect = .fail 1045) :
    otherAcctStep env copyIds s x =
      ({ s with fails := dictInsert s.fails x (getFail s.fails x + 1) },
       connectActions x ((env x).connect)) := by
  simp [otherAcctStep, h1, h2, h3, h4]

theorem verifyStep_quiet (w : String) (s : WorkerState) (pv : PendingVerify)
    (hne : pv.acc ≠ w) (hP : MAXF ≤ getFail s.fails w) :
    MAXF ≤ getFail (verifyStep s pv).1.fails w ∧
      ∀ a ∈ (verifyStep s pv).2, lockedQuiet w a := by
  unfold verifyStep
  split_ifs with h1 h2
  · constructor
    · exact le_of_le_of_eq hP (getFail_dictInsert_ne s.fails pv.acc w 0 hne).symm
    · intro a ha; simp at ha; subst ha
      intro hacct; exact absurd hacct hne
  · constructor
    · exact le_of_le_of_eq hP
        (getFail_dictInsert_ne s.fails pv.acc w (MAXF + 1) hne).symm
    · intro a ha; simp at ha
      rcases ha with h | h <;> subst h <;> intro hacct <;> exact absurd hacct hne
  · exact ⟨hP, by intro a ha; simp at ha⟩

theorem slaveStep_quiet (w : String) (env : String → AcctEnv)
    (md : List (ℤ × MTrade)) (mi : AccInfo) (s : WorkerState)
    (p : String × SlaveCfg) (hP : MAXF ≤ getFail s.fails w) :
    MAXF ≤ getFail (slaveStep env md mi s p).1.fails w ∧
      ∀ a ∈ (slaveStep env md mi s p).2, lockedQuiet w a := by
  obtain ⟨sid, cfg⟩ := p
  by_cases hcap : MAXF ≤ getFail s.fails sid
  · rw [slaveStep_capped env md mi s sid cfg hcap]
    refine ⟨hP, ?_⟩
    intro a ha; simp at ha; subst ha
    intro hacct
    exact Or.inl (by rw [show sid = w from hacct])
  · have hsw : sid ≠ w := fun h => hcap (by rw [h]; exact hP)
    rw [slaveStep_run env md mi s sid cfg hcap]
    constructor
    · exact le_of_le_of_eq hP (copyTradesForSlave_fails_ne s.fails sid cfg md mi
        (s.slaveMap sid) (env sid) w hsw).symm
    · intro a ha hacct
      have hax := copyTradesForSlave_acct s.fails sid cfg md mi
        (s.slaveMap sid) (env sid) a ha
      exact absurd (hax.symm.trans hacct) hsw

theorem masterGroupStep_quiet (w : String) (env : String → AcctEnv)
    (s : WorkerState) (grp : String × List (String × SlaveCfg))
    (hP : MAXF ≤ getFail s.fails w) :
    MAXF ≤ getFail (masterGroupStep env s grp).1.fails w ∧
      ∀ a ∈ (masterGroupStep env s grp).2, lockedQuiet w a := by
  obtain ⟨mId, slaves⟩ := grp
  by_cases hlog : mId ∈ s.loggedIn
  swap
  · rw [masterGroupStep_notLogged env s mId slaves hlog]
    exact ⟨hP, by intro a ha; simp at ha⟩
  by_cases hcap : MAXF ≤ getFail s.fails mId
  · rw [masterGroupStep_capped env s mId slaves hlog hcap]
    refine ⟨hP, ?_⟩
    intro a ha; simp at ha; subst ha
    intro hacct
    exact Or.inl (by rw [show mId = w from hacct])
  · have hmw : mId ≠ w := fun h => hcap (by rw [h]; exact hP)
    by_cases hok : (env mId).connect = .ok
    · rcases hinfo : (env mId).account_info with _ | mi
      · rw [masterGroupStep_ok_noinfo env s mId slaves hlog hcap hok hinfo]
        constructor
        · exact le_of_le_of_eq hP (getFail_dictInsert_ne s.fails mId w 0 hmw).symm
        · intro a ha hacct
          have hax : WAction.acct a = mId := by
            rcases List.mem_append.1 ha with h | h
            · rcases List.mem_append.1 h with h2 | h2
              · exact connectActions_acct mId _ a h2
              · exact detailActions_acct mId _ a h2
            · simp at h; subst h; rfl
          exact absurd (hax.symm.trans hacct) hmw
      · rw [masterGroupStep_ok_info env s mId slaves mi hlog hcap hok hinfo]
        refine tracedFold_inv (slaveStep env (buildTradeDict ((env mId).trades)) mi)
          (fun s2 => MAXF ≤ getFail s2.fails w) (lockedQuiet w) slaves
          (fun s2 p _ hp => slaveStep_quiet w env _ mi s2 p hp) _ _ ?_ ?_
        · exact le_of_le_of_eq hP (getFail_dictInsert_ne s.fails mId w 0 hmw).symm
        · intro a ha hacct
          have hax : WAction.acct a = mId := by
            rcases List.mem_append.1 ha with h | h
            · rcases List.mem_append.1 h with h2 | h2
              · exact connectActions_acct mId _ a h2
              · exact detailActions_acct mId _ a h2
            · simp at h; subst h; rfl
          exact absurd (hax.symm.trans hacct) hmw
    · rw [masterGroupStep_connfail env s mId slaves hlog hcap hok]
      constructor
      · show MAXF ≤ getFail (if (env mId).connect = .fail 1045 then
            dictInsert (dictInsert s.fails mId (getFail s.fails mId + 1)) mId (MAXF + 1)
          else dictInsert s.fails mId (getFail s.fails mId + 1)) w
        split_ifs
        · exact le_of_le_of_eq hP ((getFail_dictInsert_ne _ _ _ _ hmw).trans
            (getFail_dictInsert_ne _ _ _ _ hmw)).symm
        · exact le_of_le_of_eq hP (getFail_dictInsert_ne _ _ _ _ hmw).symm
      · intro a ha hacct
        rcases List.mem_append.1 ha with h | h
        · exact absurd ((connectActions_acct mId _ a h).symm.trans hacct) hmw
        · rcases List.mem_map.1 h with ⟨p, _, hp⟩
          subst hp
          refine Or.inr ?_
          have hpw : p.1 = w := hacct
          rw [hpw]

theorem otherAcctStep_quiet (w : String) (env : String → AcctEnv)
    (copyIds : List String) (s : WorkerState) (x : String)
    (hP : MAXF ≤ getFail s.fails w) :
    MAXF ≤ getFail (otherAcctStep env copyIds s x).1.fails w ∧
      ∀ a ∈ (otherAcctStep env copyIds s x).2, lockedQuiet w a := by
  by_cases hcp : x ∈ copyIds
  · rw [otherAcctStep_copyId env copyIds s x hcp]
    exact ⟨hP, by intro a ha; simp at ha⟩
  · by_cases hx : x = w
    · subst hx
      rw [otherAcctStep_capped env copyIds s x hcp hP]
      refine ⟨hP, ?_⟩
      intro a ha; simp at ha; subst ha
      intro _; exact Or.inl rfl
    · by_cases hcap : MAXF ≤ getFail s.fails x
      · rw [otherAcctStep_capped env copyIds s x hcp hcap]
        refine ⟨hP, ?_⟩
        intro a ha; simp at ha; subst ha
        intro hacct; exact absurd hacct hx
      · by_cases hok : (env x).connect = .ok
        · rw [otherAcctStep_ok env copyIds s x hcp hcap hok]
          constructor
          · split_ifs <;>
              exact le_of_le_of_eq hP (getFail_dictInsert_ne s.fails x w 0 hx).symm
          · intro a ha hacct
            have hax : WAction.acct a = x := by
              split_ifs at ha <;>
              · rcases List.mem_append.1 ha with h | h
                · rcases List.mem_append.1 h with h2 | h2
                  · exact connectActions_acct x _ a h2
                  · exact detailActions_acct x _ a h2
                · simp at h; subst h; rfl
            exact absurd (hax.symm.trans hacct) hx
        · by_cases h45 : (env x).connect = .fail 1045
          · rw [otherAcctStep_fail45 env copyIds s x hcp hcap h45]
            constructor
            · exact le_of_le_of_eq hP ((getFail_dictInsert_ne _ _ _ _ hx).trans
                (getFail_dictInsert_ne _ _ _ _ hx)).symm
            · intro a ha hacct
              have hax : WAction.acct a = x := by
                rcases List.mem_append.1 ha with h | h
                · exact connectActions_acct x _ a h
                · split_ifs at h
                  · simp at h; subst h; rfl
                  · simp at h
              exact absurd (hax.symm.trans hacct) hx
          · rw [otherAcctStep_failOther env copyIds s x hcp hcap hok h45]
            constructor
            · exact le_of_le_of_eq hP (getFail_dictInsert_ne _ _ _ _ hx).symm
            · intro a ha hacct
              exact absurd ((connectActions_acct x _ a ha).symm.trans hacct) hx

set_option maxHeartbeats 1600000 in
/-- Once an account is at the failure cap, a whole supervisor cycle whose
pending verifications do not concern it keeps it at the cap and only ever
emits `locked`/`inactive` statuses for it. -/
theorem runCycle_quiet (w : String) (st : WorkerState) (env : CycleEnv)
    (hpend : ∀ pv ∈ env.pendingVerify, pv.acc ≠ w)
    (hP : MAXF ≤ getFail st.fails w) :
    MAXF ≤ getFail (runCycle st env).1.fails w ∧
      ∀ a ∈ (runCycle st env).2, lockedQuiet w a := by
  have hver := tracedFold_inv verifyStep (fun s => MAXF ≤ getFail s.fails w)
    (lockedQuiet w) env.pendingVerify
    (fun s pv hpv hPs => verifyStep_quiet w s pv (hpend pv hpv) hPs)
    st [] hP (by intro a ha; simp at ha)
  have hgrp := tracedFold_inv (masterGroupStep env.acct)
    (fun s => MAXF ≤ getFail s.fails w) (lockedQuiet w)
    (slavesByMaster (verifyPhase st env.pendingVerify).1)
    (fun s g _ hPs => masterGroupStep_quiet w env.acct s g hPs)
    (verifyPhase st env.pendingVerify).1 (verifyPhase st env.pendingVerify).2
    hver.1 hver.2
  exact tracedFold_inv
    (otherAcctStep env.acct ((slavesByMaster (verifyPhase st env.pendingVerify).1).foldl
      (fun l g => l ++ g.2.map Prod.fst) []))
    (fun s => MAXF ≤ getFail s.fails w) (lockedQuiet w)
    (tracedFold (masterGroupStep env.acct)
      (slavesByMaster (verifyPhase st env.pendingVerify).1)
      ((verifyPhase st env.pendingVerify).1, (verifyPhase st env.pendingVerify).2)).1.loggedIn
    (fun s x _ hPs => otherAcctStep_quiet w env.acct _ s x hPs)
    (tracedFold (masterGroupStep env.acct)
      (slavesByMaster (verifyPhase st env.pendingVerify).1)
      ((verifyPhase st env.pendingVerify).1, (verifyPhase st env.pendingVerify).2)).1
    (tracedFold (masterGroupStep env.acct)
      (slavesByMaster (verifyPhase st env.pendingVerify).1)
      ((verifyPhase st env.pendingVerify).1, (verifyPhase st env.pendingVerify).2)).2
    hgrp.1 hgrp.2

theorem runCycles_quiet (w : String) (st : WorkerState) (envs : List CycleEnv)
    (hpend : ∀ env ∈ envs, ∀ pv ∈ env.pendingVerify, pv.acc ≠ w)
    (hP : MAXF ≤ getFail st.fails w) :
    MAXF ≤ getFail (runCycles st envs).1.fails w ∧
      ∀ a ∈ (runCycles st envs).2, lockedQuiet w a :=
  tracedFold_inv runCycle (fun s => MAXF ≤ getFail s.fails w) (lockedQuiet w)
    envs (fun s env henv hPs => runCycle_quiet w s env (hpend env henv) hPs)
    st [] hP (by intro a ha; simp at ha)

theorem otherAcctStep_fails_ne (env : String → AcctEnv) (copyIds : List String)
    (s : WorkerState) (x w : String) (hx : x ≠ w) :
    getFail (otherAcctStep env copyIds s x).1.fails w = getFail s.fails w := by
  by_cases hcp : x ∈ copyIds
  · rw [otherAcctStep_copyId env copyIds s x hcp]
  · by_cases hcap : MAXF ≤ getFail s.fails x
    · rw [otherAcctStep_capped env copyIds s x hcp hcap]
    · by_cases hok : (env x).connect = .ok
      · rw [otherAcctStep_ok env copyIds s x hcp hcap hok]
        split_ifs <;> exact getFail_dictInsert_ne s.fails x w 0 hx
      · by_cases h45 : (env x).connect = .fail 1045
        · rw [otherAcctStep_fail45 env copyIds s x hcp hcap h45]
          exact (getFail_dictInsert_ne _ _ _ _ hx).trans
            (getFail_dictInsert_ne _ _ _ _ hx)
        · rw [otherAcctStep_failOther env copyIds s x hcp hcap hok h45]
          exact getFail_dictInsert_ne s.fails x w (getFail s.fails x + 1) hx

theorem otherAcctStep_fails_keep (env : String → AcctEnv) (copyIds : List String)
    (s : WorkerState) (w : String)
    (h : w ∈ copyIds ∨ MAXF ≤ getFail s.fails w) :
    getFail (otherAcctStep env copyIds s w).1.fails w = getFail s.fails w := by
  by_cases hcp : w ∈ copyIds
  · rw [otherAcctStep_copyId env copyIds s w hcp]
  · rcases h with h | h
    · exact absurd h hcp
    · rw [otherAcctStep_capped env copyIds s w hcp h]

theorem otherFold_keeps_lock (env : String → AcctEnv) (copyIds : List String)
    (w : String) :
    ∀ (l : List String) (s0 : WorkerState) (t0 : List WAction),
      MAXF ≤ getFail s0.fails w →
      getFail ((tracedFold (otherAcctStep env copyIds) l (s0, t0)).1).fails w
        = getFail s0.fails w := by
  intro l
  induction l with
  | nil => intro s0 t0 _; rfl
  | cons x xs ih =>
      intro s0 t0 h
      rw [tracedFold_cons]
      by_cases hx : x = w
      · subst hx
        have hk := otherAcctStep_fails_keep env copyIds s0 x (Or.inr h)
        rw [ih _ _ (by rw [hk]; exact h), hk]
      · have hk := otherAcctStep_fails_ne env copyIds s0 x w hx
        rw [ih _ _ (by rw [hk]; exact h), hk]

theorem otherFold_keeps_copyId (env : String → AcctEnv) (copyIds : List String)
    (w : String) (hcp : w ∈ copyIds) :
    ∀ (l : List String) (s0 : WorkerState) (t0 : List WAction),
      getFail ((tracedFold (otherAcctStep env copyIds) l (s0, t0)).1).fails w
        = getFail s0.fails w := by
  intro l
  induction l with
  | nil => intro s0 t0; rfl
  | cons x xs ih =>
      intro s0 t0
      rw [tracedFold_cons]
      by_cases hx : x = w
      · subst hx
        have hk := otherAcctStep_fails_keep env copyIds s0 x (Or.inl hcp)
        rw [ih _ _, hk]
      · have hk := otherAcctStep_fails_ne env copyIds s0 x w hx
        rw [ih _ _, hk]

/-- The standalone pass over the logged-in accounts: as soon as it reaches an
account whose connect fails with `invalidAuth` (and that is not handled by a
copier group), the failure count lands exactly at `MAX + 1` and stays there
for the rest of the pass. -/
theorem otherFold_sets_lock (env : String → AcctEnv) (copyIds : List String)
    (w : String) (hcp : w ∉ copyIds) (h45 : (env w).connect = .fail 1045) :
    ∀ (l : List String) (s0 : WorkerState) (t0 : List WAction),
      w ∈ l →
      (getFail s0.fails w < MAXF ∨ getFail s0.fails w = MAXF + 1) →
      getFail ((tracedFold (otherAcctStep env copyIds) l (s0, t0)).1).fails w
        = MAXF + 1 := by
  intro l
  induction l with
  | nil => intro s0 t0 hmem; exact absurd hmem (List.not_mem_nil w)
  | cons x xs ih =>
      intro s0 t0 hmem hdisj
      rw [tracedFold_cons]
      by_cases hx : x = w
      · subst hx
        rcases hdisj with hlt | heq
        · have hstep : getFail (otherAcctStep env copyIds s0 x).1.fails x = MAXF + 1 := by
            rw [otherAcctStep_fail45 env copyIds s0 x hcp (not_le.mpr hlt) h45]
            exact getFail_dictInsert_self _ _ _
          rw [otherFold_keeps_lock env copyIds x xs _ _ (by rw [hstep]; omega), hstep]
        · have hk := otherAcctStep_fails_keep env copyIds s0 x (Or.inr (by omega))
          rw [otherFold_keeps_lock env copyIds x xs _ _ (by rw [hk, heq]; omega), hk, heq]
      · have hk := otherAcctStep_fails_ne env copyIds s0 x w hx
        have hmem2 : w ∈ xs := by
          rcases List.mem_cons.1 hmem with h | h
          · exact absurd h.symm hx
          · exact h
        exact ih _ _ hmem2 (by rw [hk]; exact hdisj)

/-- Counterexample for C3: in the very cycle in which `invalidAuth` strikes a
standalone account, the failure count jumps past the cap but the status the
supervisor reports is `error` (from `_connect_mt5`), not `locked` — the
`locked` label only appears from the following cycle on. -/
theorem C3_invalidauth_error_counterexample :
    getFail (runCycle c3State c3Env).1.fails ("acct9") = MAXF + 1 ∧
    (runCycle c3State c3Env).2 =
      [.connectAttempt ("acct9"), .statusMsg ("acct9") ("error")] ∧
    WAction.statusMsg ("acct9") ("locked") ∉ (runCycle c3State c3Env).2 := by
  decide

/-- **C3** (amended).  (1) In a cycle with no pending verification and no
follower groups, `invalidAuth` (1045) on a below-cap logged-in account's
connect sets its failure count to exactly `MAX + 1` at once.  (2) A
follower's `invalidAuth` during the copy step only increments its count by
one.  (3) Once the count is at the cap and no cycle re-verifies the
account's credentials, no later supervisor cycle attempts a connect or
issues an `order_send` for it: every action tagged with the account is a
`locked` re-report or an `inactive` mark from a failed master group. -/
theorem C3_lockout (w : String) :
    (∀ (st : WorkerState) (env : CycleEnv),
      env.pendingVerify = [] → slavesByMaster st = [] →
      w ∈ st.loggedIn → getFail st.fails w < MAXF →
      (env.acct w).connect = .fail 1045 →
      getFail (runCycle st env).1.fails w = MAXF + 1) ∧
    (∀ (st : WorkerState) (env : CycleEnv) (m : String) (cfg : SlaveCfg)
      (minfo : AccInfo),
      env.pendingVerify = [] → m ≠ w →
      slavesByMaster st = [(m, [(w, cfg)])] →
      m ∈ st.loggedIn → getFail st.fails m < MAXF →
      (env.acct m).connect = .ok → (env.acct m).account_info = some minfo →
      cfg.enabled = true → (env.acct w).connect = .fail 1045 →
      getFail st.fails w < MAXF →
      getFail (runCycle st env).1.fails w = getFail st.fails w + 1) ∧
    (∀ (st : WorkerState) (envs : List CycleEnv),
      MAXF ≤ getFail st.fails w →
      (∀ env ∈ envs, w ∉ env.pendingVerify.map PendingVerify.acc) →
      MAXF ≤ getFail (runCycles st envs).1.fails w ∧
      (∀ a ∈ (runCycles st envs).2, WAction.acct a = w →
        a = .statusMsg w ("locked") ∨ a = .statusMsg w ("inactive")) ∧
      WAction.connectAttempt w ∉ (runCycles st envs).2 ∧
      (∀ r, WAction.orderSend w r ∉ (runCycles st envs).2)) := by
  refine ⟨?_, ?_, ?_⟩
  · intro st env hpv hgr hlog hlt h45
    obtain ⟨acctF, pend⟩ := env
    have hpend : pend = [] := hpv
    subst hpend
    show getFail ((tracedFold (otherAcctStep acctF
        ((slavesByMaster st).foldl (fun l g => l ++ g.2.map Prod.fst) []))
        (tracedFold (masterGroupStep acctF) (slavesByMaster st) (st, [])).1.loggedIn
        (tracedFold (masterGroupStep acctF) (slavesByMaster st) (st, []))).1).fails w
      = MAXF + 1
    rw [hgr]
    show getFail ((tracedFold (otherAcctStep acctF []) st.loggedIn (st, [])).1).fails w
      = MAXF + 1
    exact otherFold_sets_lock acctF [] w (List.not_mem_nil w) h45
      st.loggedIn st [] hlog (Or.inl hlt)
  · intro st env m cfg minfo hpv hm hgr hmlog hmlt hmok hminfo hen h45 hwlt
    obtain ⟨acctF, pend⟩ := env
    have hpend : pend = [] := hpv
    subst hpend
    have hst1 : getFail (dictInsert st.fails m 0) w = getFail st.fails w :=
      getFail_dictInsert_ne st.fails m w 0 hm
    have hM : getFail (masterGroupStep acctF st (m, [(w, cfg)])).1.fails w
        = getFail st.fails w + 1 := by
      rw [masterGroupStep_ok_info acctF st m [(w, cfg)] minfo hmlog (not_le.mpr hmlt)
        hmok hminfo, tracedFold_cons, tracedFold_nil]
      show getFail (slaveStep acctF (buildTradeDict ((acctF m).trades)) minfo
          { st with fails := dictInsert st.fails m 0 } (w, cfg)).1.fails w
        = getFail st.fails w + 1
      rw [slaveStep_run acctF (buildTradeDict ((acctF m).trades)) minfo
          { st with fails := dictInsert st.fails m 0 } w cfg (by
            show ¬ MAXF ≤ getFail (dictInsert st.fails m 0) w
            rw [hst1]; exact not_le.mpr hwlt)]
      show getFail (copyTradesForSlave (dictInsert st.fails m 0) w cfg
          (buildTradeDict ((acctF m).trades)) minfo (st.slaveMap w) (acctF w)).1 w
        = getFail st.fails w + 1
      rw [copyTradesForSlave_connfail (dictInsert st.fails m 0) w cfg
          (buildTradeDict ((acctF m).trades)) minfo (st.slaveMap w) (acctF w) hen
          (by rw [h45]; decide)]
      show getFail (dictInsert (dictInsert st.fails m 0) w
          (getFail (dictInsert st.fails m 0) w + 1)) w = getFail st.fails w + 1
      rw [getFail_dictInsert_self, hst1]
    show getFail ((tracedFold (otherAcctStep acctF
        ((slavesByMaster st).foldl (fun l g => l ++ g.2.map Prod.fst) []))
        (tracedFold (masterGroupStep acctF) (slavesByMaster st) (st, [])).1.loggedIn
        (tracedFold (masterGroupStep acctF) (slavesByMaster st) (st, []))).1).fails w
      = getFail st.fails w + 1
    rw [hgr]
    show getFail ((tracedFold (otherAcctStep acctF [w])
        (tracedFold (masterGroupStep acctF) [(m, [(w, cfg)])] (st, [])).1.loggedIn
        (tracedFold (masterGroupStep acctF) [(m, [(w, cfg)])] (st, []))).1).fails w
      = getFail st.fails w + 1
    rw [tracedFold_cons, tracedFold_nil]
    show getFail ((tracedFold (otherAcctStep acctF [w])
        (masterGroupStep acctF st (m, [(w, cfg)])).1.loggedIn
        ((masterGroupStep acctF st (m, [(w, cfg)])).1,
         [] ++ (masterGroupStep acctF st (m, [(w, cfg)])).2)).1).fails w
      = getFail st.fails w + 1
    exact (otherFold_keeps_copyId acctF [w] w (List.mem_singleton.mpr rfl)
      (masterGroupStep acctF st (m, [(w, cfg)])).1.loggedIn
      (masterGroupStep acctF st (m, [(w, cfg)])).1
      ([] ++ (masterGroupStep acctF st (m, [(w, cfg)])).2)).trans hM
  · intro st envs hP hpends
    have h := runCycles_quiet w st envs
      (fun env henv pv hpv heq =>
        hpends env henv (List.mem_map.2 ⟨pv, hpv, heq⟩)) hP
    refine ⟨h.1, ?_, ?_, ?_⟩
    · exact fun a ha hacct => h.2 a ha hacct
    · intro hmem
      rcases h.2 _ hmem rfl with hh | hh <;> simp at hh
    · intro r hmem
      rcases h.2 _ hmem rfl with hh | hh <;> simp at hh

/-- Witness for C3: the standalone fast-lock at `acct9`, the follower
increment at `slave1`, and the quiescence of an already-capped account over
a further cycle. -/
theorem C3_lockout_witness :
    getFail (runCycle c3State c3Env).1.fails ("acct9") = MAXF + 1 ∧
    getFail (runCycle c3bState c3bEnv).1.fails ("slave1")
      = getFail c3bState.fails ("slave1") + 1 ∧
    WAction.connectAttempt ("acct9") ∉ (runCycles c3LockState [c3Env]).2 ∧
    (∀ r, WAction.orderSend ("acct9") r ∉ (runCycles c3LockState [c3Env]).2) := by
  refine ⟨?_, ?_, ?_, ?_⟩
  · exact (C3_lockout ("acct9")).1 c3State c3Env rfl rfl (by decide) (by decide) rfl
  · exact (C3_lockout ("slave1")).2.1 c3bState c3bEnv ("master1") c3bCfg
      { equity := 1 } rfl (by decide) (by decide) (by decide) (by decide) rfl rfl rfl
      rfl (by decide)
  · exact ((C3_lockout ("acct9")).2.2 c3LockState [c3Env] (by decide)
      (by decide)).2.2.1
  · exact ((C3_lockout ("acct9")).2.2 c3LockState [c3Env] (by decide)
      (by decide)).2.2.2

end MT5
